import Mathlib

/-!
# flac++ (`src/flacplusplus.hpp`): metadata-block reader

A shallow embedding of `flacpp::FlacParser` and theorems about it.

Modelling conventions, used throughout:

* A `char` buffer is a `List Byte`; a pointer into it is the suffix it points at, so
  `p + n` is `p.drop n`.
* A read `data[i]` at an index outside the buffer is undefined in C++.  The embedding stops
  there with `Run.outOfBounds`; no value is invented for such a read.  The same holds for a
  store outside the buffer of a `std::string`.
* Loops whose trip count is not fixed by a counter run on fuel; `Run.outOfFuel` is kept
  apart from `Run.outOfBounds` so that "the loop ends" can be stated and proved.
* `char` is signed (GCC on x86) and `int` is 32 bits, `short` 16 bits, `long` 64 bits.
  An `int` expression is evaluated on 32-bit two's-complement patterns held in `Nat`,
  with the reduction modulo `2^32` written out; `toInt`, `toShort`, `toLong` give the
  signed value of a pattern.
* Operands of `|` that contain `++use` are evaluated left to right, as the source's
  comments and layout intend.
* A `std::string` is the list of its cells.  `std::string(arr)` for a local `char` array
  reads the cells of `arr` and then the cells that follow `arr` in memory, up to the first
  NUL: none of the arrays of the source has a terminator of its own.  The source does not
  fix the cells that follow an array; they are an input of the embedding (`after` in
  `parse`, `ArrayTails` in the decoders), never a value it makes up.
* A store `s[i] = c` does not change the length of a `std::string`: a default-constructed
  string that is only written this way stays empty.  The buffer of an empty string holds
  16 cells (libstdc++); a store at index 16 or above is outside it.
* `std::map` is an association list with unique keys; the iteration order of the map is
  not modelled.
-/

namespace flacpp

/-! ## Constants (lines 23–43) -/

def FLAC_LENGHT : Nat := 4

def META_TYPE_STREAM_INFO : Int := 0
def META_TYPE_PADDING : Int := 1
def META_TYPE_APPLICATION : Int := 2
def META_TYPE_SEEK_TABLE : Int := 3
def META_TYPE_VORBIS_COMMENT : Int := 4
def META_TYPE_CUESHEET : Int := 5
def META_TYPE_PICTURE : Int := 6

def OPEN_FILE_FAILED : Int := 1
def NOT_FLAC_FAILED : Int := 2
def PARSE_FAILED : Int := -1
def PARSE_OK : Int := 0

/-! ## Machine model -/

/-- One `char` cell, as its unsigned byte value. -/
abbrev Byte := Fin 256

/-- Outcome of running a piece of the source. -/
inductive Run (α : Type) where
  /-- The code ran to its end and produced `a`. -/
  | done (a : α)
  /-- The code read a cell outside the buffer it was given, or stored one outside the
  buffer of a string. -/
  | outOfBounds
  /-- The fuel of a loop of the embedding ran out. -/
  | outOfFuel
deriving DecidableEq

/-- Sequencing of two pieces of code. -/
def Run.bind {α β : Type} (x : Run α) (f : α → Run β) : Run β :=
  match x with
  | .done a => f a
  | .outOfBounds => .outOfBounds
  | .outOfFuel => .outOfFuel

instance : Monad Run where
  pure := Run.done
  bind := Run.bind

/-- Integral promotion of a signed `char` cell to `int` (32-bit pattern). -/
def promote (b : Byte) : Nat :=
  if b.val < 128 then b.val else b.val + 4294967040

/-- The `int` operator `x << k` on 32-bit patterns. -/
def shl (x k : Nat) : Nat := (x <<< k) % 4294967296

/-- The `int` operator `x >> k` (arithmetic shift) on 32-bit patterns. -/
def sar (x k : Nat) : Nat :=
  if x < 2147483648 then x >>> k else (x >>> k) + (4294967296 - 2 ^ (32 - k))

/-- Signed value of a 32-bit pattern (`int`). -/
def toInt (x : Nat) : Int :=
  if x % 4294967296 < 2147483648 then ((x % 4294967296 : Nat) : Int)
  else ((x % 4294967296 : Nat) : Int) - 4294967296

/-- Conversion of an `int` pattern to `short`, as the signed value. -/
def toShort (x : Nat) : Int :=
  if x % 65536 < 32768 then ((x % 65536 : Nat) : Int) else ((x % 65536 : Nat) : Int) - 65536

/-- Conversion of an `int` pattern to `long` (sign extension to a 64-bit pattern). -/
def widen (x : Nat) : Nat :=
  if x < 2147483648 then x else x + 18446744069414584320

/-- The `long` operator `x << k` on 64-bit patterns. -/
def shl64 (x k : Nat) : Nat := (x <<< k) % 18446744073709551616

/-- Signed value of a 64-bit pattern (`long`). -/
def toLong (x : Nat) : Int :=
  if x % 18446744073709551616 < 9223372036854775808 then ((x % 18446744073709551616 : Nat) : Int)
  else ((x % 18446744073709551616 : Nat) : Int) - 18446744073709551616

/-- Conversion of an `int` pattern to `bool`. -/
def toBool (x : Nat) : Bool := decide (x ≠ 0)

/-- Conversion of an `int` pattern to `char` (the low eight bits). -/
def toChar (x : Nat) : Byte := ⟨x % 256, Nat.mod_lt x (by decide)⟩

/-- The logical operator `x && y` on `int` patterns: `1` or `0`. -/
def logAnd (x y : Nat) : Nat := if x ≠ 0 ∧ y ≠ 0 then 1 else 0

/-- The read `data[i]`, promoted to `int`. -/
def load (data : List Byte) (i : Nat) : Run Nat :=
  match data[i]? with
  | some b => .done (promote b)
  | none => .outOfBounds

/-- The reads `data[start]`, `data[start+1]`, …, `n` of them in this order, as done by a
`for (int i = 0; i < n; i++)` loop that reads one cell per round. -/
def loadRange (data : List Byte) (start : Nat) : Nat → Run (List Nat)
  | 0 => .done []
  | n + 1 =>
    (load data start).bind fun c =>
    (loadRange data (start + 1) n).bind fun cs =>
    .done (c :: cs)

/-- Cells of `std::string(p)` for a `char` pointer `p`, given the cells that lie at `p` and
behind: the cells up to the first NUL. -/
def cString (cells : List Byte) : List Byte := cells.takeWhile fun c => c ≠ 0

/-- The cells that lie in memory right behind the unterminated local `char` arrays of the
decoders, as far as `std::string(arr)` reads them (up to the first NUL): behind `mineType`
and `desc` of `parsePicture` and behind `_data` of `parsePadding`. An empty list says that
a NUL follows the array at once. -/
structure ArrayTails where
  mineType : List Byte
  desc : List Byte
  padding : List Byte
deriving DecidableEq

/-- A NUL follows every array at once. -/
def ArrayTails.nul : ArrayTails := ⟨[], [], []⟩

/-- The loop `for (i = 0; i < n; i++) s[i] = … data[start + i] …;` on a default-constructed
`std::string s`: `n` cells are read and stored into the buffer of `s`, which holds 16
cells; the length of `s` stays 0, so nothing of what is stored belongs to the string. -/
def storeCells (data : List Byte) (start n : Nat) : Run Unit :=
  (loadRange data start n).bind fun _ =>
  if n ≤ 16 then .done () else .outOfBounds

/-! ## Data model (lines 80–218) -/

/-- `struct SeekPoint` (lines 80–85). -/
structure SeekPoint where
  sampleNumber : List Byte
  frameOffset : List Byte
  targetFrameSampleCount : Int
deriving DecidableEq

/-- `struct MetaBlock` (lines 89–94). -/
structure MetaBlock where
  isFinal : Bool
  blockType : Int
  blockSize : Int
deriving DecidableEq

/-- `struct StreamInfo : MetaBlock` (lines 96–107). -/
structure StreamInfo extends MetaBlock where
  minimunBlockSize : Int
  maximumBlockSize : Int
  minimumFrameSize : Int
  maximumFrameSize : Int
  sampleRate : Int
  numberOfChannels : Int
  bitsPerSample : Int
  totalSampleCount : Int
  md5Info : List Byte
deriving DecidableEq

/-- `struct Padding : MetaBlock` (lines 109–112). -/
structure Padding extends MetaBlock where
  data : List Byte
deriving DecidableEq

/-- `struct Application : MetaBlock` (lines 114–118). -/
structure Application extends MetaBlock where
  applicationId : List Byte
  applicationData : List Byte
deriving DecidableEq

/-- `struct SeekTable : MetaBlock` (lines 119–131). -/
structure SeekTable extends MetaBlock where
  seekPoints : List SeekPoint
deriving DecidableEq

/-- The type `std::map<std::string, std::vector<std::string>>`. -/
abbrev DataMap := List (List Byte × List (List Byte))

/-- `struct VorbisComment : MetaBlock` (lines 133–145). -/
structure VorbisComment extends MetaBlock where
  dataMap : DataMap
deriving DecidableEq

/-- `struct Cuesheet : MetaBlock` (lines 147–166); no code of the source fills it. -/
structure Cuesheet extends MetaBlock where
  tracksCount : Int
deriving DecidableEq

/-- `struct Picture : MetaBlock` (lines 168–182). -/
structure Picture extends MetaBlock where
  pictureType : Int
  mineTypeLength : Int
  mineType : List Byte
  descLength : Int
  desc : List Byte
  pictureWidth : Int
  pictureHeight : Int
  colorDepth : Int
  colorsUseCount : Int
  dataLength : Int
  data : List Byte
deriving DecidableEq

/-- `class FlacInfo` (lines 188–218): one pointer per block type, `nullptr` is `none`. -/
structure FlacInfo where
  streamInfo : Option StreamInfo := none
  padding : Option Padding := none
  seekTable : Option SeekTable := none
  application : Option Application := none
  vorbisComment : Option VorbisComment := none
  cuesheet : Option Cuesheet := none
  picture : Option Picture := none
deriving DecidableEq

/-- Header of a block object before `parse2` fills it in. -/
def MetaBlock.zero : MetaBlock := ⟨false, 0, 0⟩

/-! ## Block decoders (lines 336–496) -/

/-- `FlacParser::parseStreamInfo` (lines 336–374): the block object stored in `info`.
The header fields are those of a fresh object; `parse2` sets them afterwards. `md5Info` is
default-constructed and written only through `operator[]` (line 365), so it stays
empty. -/
def parseStreamInfo (data : List Byte) (size : Int) : Run StreamInfo :=
  (load data 0).bind fun d0 =>
  (load data 1).bind fun d1 =>
  let minimumBlock := toShort (shl d0 8 ||| d1)
  (load data 2).bind fun d2 =>
  (load data 3).bind fun d3 =>
  let maximumBlock := toShort (shl d2 8 ||| d3)
  (load data 4).bind fun d4 =>
  (load data 5).bind fun d5 =>
  (load data 6).bind fun d6 =>
  let minimumFrame := shl (d4 &&& 0x00ff) 16 ||| shl (d5 &&& 0x00ff) 8 ||| (d6 &&& 0x00ff)
  (load data 7).bind fun d7 =>
  (load data 8).bind fun d8 =>
  (load data 9).bind fun d9 =>
  let maximumFrame := shl (d7 &&& 0x00ff) 16 ||| shl (d8 &&& 0x00ff) 8 ||| (d9 &&& 0x00ff)
  (load data 10).bind fun d10 =>
  (load data 11).bind fun d11 =>
  let sampleRate0 := shl (d10 &&& 0x00ff) 8 ||| (d11 &&& 0x00ff)
  (load data 12).bind fun d12 =>
  let sampleRate := shl sampleRate0 4 ||| sar (d12 &&& 0x00ff) 4
  let channelsCount := toShort (sar d12 1 &&& 0x07)
  (load data 13).bind fun d13 =>
  let bitsPerSample := toShort (shl (d12 &&& 0x01) 4 ||| sar (d13 &&& 0x00ff) 4)
  (load data 14).bind fun d14 =>
  (load data 15).bind fun d15 =>
  (load data 16).bind fun d16 =>
  (load data 17).bind fun d17 =>
  let totalSampleCount :=
    shl64 (widen (d13 &&& 0x000f)) 32 ||| shl64 (widen (d14 &&& 0x00ff)) 24
      ||| widen (shl (d15 &&& 0x00ff) 16) ||| widen (shl (d16 &&& 0x00ff) 8)
      ||| widen (d17 &&& 0x00ff)
  (storeCells data 18 (size - 18).toNat).bind fun _ =>
  .done
    { MetaBlock.zero with
      minimunBlockSize := minimumBlock
      maximumBlockSize := maximumBlock
      minimumFrameSize := toInt minimumFrame
      maximumFrameSize := toInt maximumFrame
      sampleRate := toInt sampleRate
      numberOfChannels := channelsCount
      bitsPerSample := bitsPerSample
      totalSampleCount := toLong totalSampleCount
      md5Info := [] }

/-- A 32-bit big-endian field read as in `parsePicture`:
`((data[i] & 0xff) << 24) | ((data[i+1] & 0xff) << 16) | ((data[i+2] & 0xff) << 8) | (data[i+3] & 0xff)`. -/
def be32 (data : List Byte) (i : Nat) : Run Nat :=
  (load data i).bind fun a =>
  (load data (i + 1)).bind fun b =>
  (load data (i + 2)).bind fun c =>
  (load data (i + 3)).bind fun d =>
  .done (shl (a &&& 0x00ff) 24 ||| shl (b &&& 0x00ff) 16 ||| shl (c &&& 0x00ff) 8 ||| (d &&& 0x00ff))

/-- The loop `for (int i = 0; i < n; i++) out[i] = (data[++use] & 0x00ff);` with `use + 1 = start`:
the cells stored. A count `n ≤ 0` stores nothing. -/
def readChars (data : List Byte) (start : Nat) (n : Int) : Run (List Byte) :=
  (loadRange data start n.toNat).bind fun cs => .done (cs.map fun c => toChar (c &&& 0x00ff))

/-- `FlacParser::parsePicture` (lines 375–415). `mineType` and `desc` are built by
`std::string(arr)` from arrays without terminator (lines 404, 406): each holds the cells of
its array and of what follows it in memory, up to the first NUL. -/
def parsePicture (tails : ArrayTails) (data : List Byte) (_size : Int) : Run Picture :=
  (be32 data 0).bind fun pictureType =>
  (be32 data 4).bind fun mineTypeLength =>
  let n1 := (toInt mineTypeLength).toNat
  (readChars data 8 (toInt mineTypeLength)).bind fun mineType =>
  (be32 data (8 + n1)).bind fun descLength =>
  let n2 := (toInt descLength).toNat
  (readChars data (12 + n1) (toInt descLength)).bind fun desc =>
  (be32 data (12 + n1 + n2)).bind fun pictureWidth =>
  (be32 data (16 + n1 + n2)).bind fun pictureHeight =>
  (be32 data (20 + n1 + n2)).bind fun colorDepth =>
  (be32 data (24 + n1 + n2)).bind fun colorsUseCount =>
  (be32 data (28 + n1 + n2)).bind fun dataLength =>
  (readChars data (32 + n1 + n2) (toInt dataLength)).bind fun picData =>
  .done
    { MetaBlock.zero with
      pictureType := toInt pictureType
      mineTypeLength := toInt mineTypeLength
      mineType := cString (mineType ++ tails.mineType)
      descLength := toInt descLength
      desc := cString (desc ++ tails.desc)
      pictureWidth := toInt pictureWidth
      pictureHeight := toInt pictureHeight
      colorDepth := toInt colorDepth
      colorsUseCount := toInt colorsUseCount
      dataLength := toInt dataLength
      data := picData }

/-- One cell stored as `(data[use++] && 0x00ff)`. -/
def flagCell (c : Nat) : Byte := toChar (logAnd c 0x00ff)

/-- The `while (use < size)` loop of `parseSeekTable` (lines 421–434). The two strings of
`point` are default-constructed and written only through `operator[]` (lines 426, 430), so
they are empty when `push_back` copies the point. -/
def seekTableLoop (data : List Byte) (size : Int) : Nat → Nat → List SeekPoint → Run (List SeekPoint)
  | 0, _, _ => .outOfFuel
  | fuel + 1, use, points =>
    if (use : Int) < size then
      (storeCells data use 8).bind fun _ =>
      (storeCells data (use + 8) 8).bind fun _ =>
      (load data (use + 16)).bind fun t0 =>
      (load data (use + 17)).bind fun t1 =>
      let point : SeekPoint :=
        { sampleNumber := []
          frameOffset := []
          targetFrameSampleCount := toShort (shl (logAnd t0 0x00ff) 8 ||| logAnd t1 0x00ff) }
      seekTableLoop data size fuel (use + 18) (points ++ [point])
    else .done points

/-- `FlacParser::parseSeekTable` (lines 416–436). -/
def parseSeekTable (data : List Byte) (size : Int) : Run SeekTable :=
  (seekTableLoop data size (data.length + 1) 0 []).bind fun points =>
  .done { MetaBlock.zero with seekPoints := points }

/-- The call `data_map->find(key)`: the values stored under `key`, if any. -/
def mapFind (m : DataMap) (key : List Byte) : Option (List (List Byte)) :=
  match m with
  | [] => none
  | (k, vs) :: rest => if k = key then some vs else mapFind rest key

/-- The call `result->second.push_back(value)` on the entry of `key`. -/
def mapPushBack (m : DataMap) (key value : List Byte) : DataMap :=
  match m with
  | [] => []
  | (k, vs) :: rest =>
    if k = key then (k, vs ++ [value]) :: rest else (k, vs) :: mapPushBack rest key value

/-- The call `data_map->insert(value_type(key, values))` for a key that is not in the map. -/
def mapInsert (m : DataMap) (key : List Byte) (values : List (List Byte)) : DataMap :=
  m ++ [(key, values)]

/-- The locals `key`, `value`, `flag` of one round of the comment loop. -/
structure CommentAcc where
  key : List Byte
  value : List Byte
  flag : Bool
deriving DecidableEq

/-- Body of `for (int i = 0; i < length; i++)` in `parseVorbisComment` (lines 453–467). -/
def commentStep (acc : CommentAcc) (code : Byte) : CommentAcc :=
  if code = 61 then { acc with flag := true }
  else if acc.flag then { acc with value := acc.value ++ [code] }
  else { acc with key := acc.key ++ [code] }

/-- The locals `key` and `value` after the `for` loop over the cells of one comment. -/
def splitComment (cells : List Byte) : CommentAcc :=
  cells.foldl commentStep ⟨[], [], false⟩

/-- Lines 470–480: the update of the map with one `key`, `value`. -/
def mapAdd (m : DataMap) (key value : List Byte) : DataMap :=
  match mapFind m key with
  | some _ => mapPushBack m key value
  | none => mapInsert m key [value]

/-- Lines 447–469 of `parseVorbisComment`: the length field at `use`, then the cells of the
comment; gives the locals `key`, `value` and the new `use`. -/
def readComment (data : List Byte) (use : Nat) : Run (CommentAcc × Nat) :=
  (load data use).bind fun b0 =>
  (load data (use + 1)).bind fun b1 =>
  (load data (use + 2)).bind fun b2 =>
  (load data (use + 3)).bind fun b3 =>
  let length := (b0 &&& 0x00ff) ||| shl (b1 &&& 0x00ff) 8 ||| shl (b2 &&& 0x00ff) 16
    ||| shl (b3 &&& 0x00ff) 24
  (readChars data (use + 4) (toInt length)).bind fun cells =>
  .done (splitComment cells, use + 3 + (toInt length).toNat + 1)

/-- The `while (use < size)` loop of `parseVorbisComment` (lines 445–481). -/
def vorbisLoop (data : List Byte) (size : Int) : Nat → Nat → DataMap → Run DataMap
  | 0, _, _ => .outOfFuel
  | fuel + 1, use, m =>
    if (use : Int) < size then
      (readComment data use).bind fun r =>
      vorbisLoop data size fuel r.2 (mapAdd m r.1.key r.1.value)
    else .done m

/-- `FlacParser::parseVorbisComment` (lines 437–483); `use = +39; use++` starts at 40. -/
def parseVorbisComment (data : List Byte) (size : Int) : Run VorbisComment :=
  (vorbisLoop data size (data.length + 1) (39 + 1) []).bind fun m =>
  .done { MetaBlock.zero with dataMap := m }

/-- `FlacParser::parsePadding` (lines 484–496). `data` is built by `std::string(_data)`
from an array without terminator (line 493): it holds the cells of `_data` and of what
follows the array in memory (`tail`), up to the first NUL. -/
def parsePadding (tail : List Byte) (data : List Byte) (size : Int) : Run Padding :=
  (loadRange data 0 size.toNat).bind fun cs =>
  .done { MetaBlock.zero with data := cString (cs.map flagCell ++ tail) }

/-! ## Dispatcher and driver (lines 222–335) -/

/-- The locals of `parse2` after the header is read (lines 275–282). -/
structure Header where
  isLastMetaBlock : Bool
  blockType : Int
  blockSize : Int
deriving DecidableEq

/-- Lines 277–280 of `parse2`: the three header fields from the cells `data[0..3]`. -/
def readHeader (data : List Byte) : Run Header :=
  (load data 0).bind fun h0 =>
  let isLastMetaBlock := toBool (sar h0 7)
  let blockType := toInt (h0 &&& 0x7f)
  (load data 1).bind fun h1 =>
  (load data 2).bind fun h2 =>
  (load data 3).bind fun h3 =>
  let blockSize := toInt ((shl (h1 &&& 0x00ff) 16 ||| shl (h2 &&& 0x00ff) 8) ||| (h3 &&& 0x00ff))
  .done ⟨isLastMetaBlock, blockType, blockSize⟩

/-- Lines 285–291 of `parse2`: the copy `realData` of `blockSize` cells from `data + index`. -/
def copyBody (data : List Byte) (index : Nat) (blockSize : Int) : Run (List Byte) :=
  (loadRange data index blockSize.toNat).bind fun cs => .done (cs.map toChar)

/-- The `switch (blockType)` of `parse2` (lines 293–327): the aggregate after the selected
decoder ran and the three header fields were stored. -/
def dispatch (tails : ArrayTails) (h : Header) (realData : List Byte) (info : FlacInfo) :
    Run FlacInfo :=
  if h.blockType = META_TYPE_STREAM_INFO then
    (parseStreamInfo realData h.blockSize).bind fun b =>
    let b1 : StreamInfo :=
      { b with blockSize := h.blockSize, blockType := h.blockType, isFinal := h.isLastMetaBlock }
    .done { info with streamInfo := some b1 }
  else if h.blockType = META_TYPE_PICTURE then
    (parsePicture tails realData h.blockSize).bind fun b =>
    let b1 : Picture :=
      { b with blockSize := h.blockSize, blockType := h.blockType, isFinal := h.isLastMetaBlock }
    .done { info with picture := some b1 }
  else if h.blockType = META_TYPE_SEEK_TABLE then
    (parseSeekTable realData h.blockSize).bind fun b =>
    let b1 : SeekTable :=
      { b with blockSize := h.blockSize, blockType := h.blockType, isFinal := h.isLastMetaBlock }
    .done { info with seekTable := some b1 }
  else if h.blockType = META_TYPE_VORBIS_COMMENT then
    (parseVorbisComment realData h.blockSize).bind fun b =>
    let b1 : VorbisComment :=
      { b with blockSize := h.blockSize, blockType := h.blockType, isFinal := h.isLastMetaBlock }
    .done { info with vorbisComment := some b1 }
  else if h.blockType = META_TYPE_PADDING then
    (parsePadding tails.padding realData h.blockSize).bind fun b =>
    let b1 : Padding :=
      { b with blockSize := h.blockSize, blockType := h.blockType, isFinal := h.isLastMetaBlock }
    .done { info with padding := some b1 }
  else .done info

/-- What one call of `parse2` leaves behind: its return value and its two reference
arguments. -/
structure Parse2Out where
  result : Int
  info : FlacInfo
  isFinal : Bool
deriving DecidableEq

/-- `FlacParser::parse2` (lines 271–335). No statement of the `try` block throws in the
embedding, so the `catch` branch returning `PARSE_FAILED` is never taken. -/
def parse2 (tails : ArrayTails) (data : List Byte) (info : FlacInfo) : Run Parse2Out :=
  (readHeader data).bind fun h =>
  let index : Nat := 3 + 1
  (copyBody data index h.blockSize).bind fun realData =>
  (dispatch tails h realData info).bind fun info1 =>
  .done ⟨(index : Int) + h.blockSize, info1, h.isLastMetaBlock⟩

/-- What `parse` leaves behind once the file is in memory: the return code, the aggregate,
the local `offsetAddress`, and (ghost) the value of `offsetAddress` at every call of
`parse2`, in call order. -/
structure ParseOut where
  code : Int
  info : FlacInfo
  offsetAddress : Int
  calls : List Int
deriving DecidableEq

/-- The `do … while (!isFinal)` loop of `parse` (lines 252–262) and the return after it.
`tails k` are the cells behind the arrays of the decoders during call number `k` of
`parse2` (counted from 0). -/
def parseLoop (tails : Nat → ArrayTails) :
    Nat → List Byte → FlacInfo → Int → List Int → Run ParseOut
  | 0, _, _, _, _ => .outOfFuel
  | fuel + 1, content, info, offsetAddress, calls =>
    (parse2 (tails calls.length) content info).bind fun r =>
    if r.result = PARSE_FAILED then
      .done ⟨PARSE_FAILED, r.info, offsetAddress, calls ++ [offsetAddress]⟩
    else if !r.isFinal then
      parseLoop tails fuel (content.drop r.result.toNat) r.info (offsetAddress + r.result)
        (calls ++ [offsetAddress])
    else
      .done ⟨PARSE_OK, r.info, offsetAddress + r.result, calls ++ [offsetAddress]⟩

/-- The marker the first four cells are compared with: the cells of `"fLaC"`. -/
def fLaC : List Byte := [102, 76, 97, 67]

/-- `FlacParser::parse` from line 238 on, with the file's bytes in `content`
(the file is opened and read in lines 224–236, which are not modelled). The marker test of
line 246 is `std::string(fLaC).compare("fLaC")` on the array `char fLaC[4]`, which has no
terminator: the string holds the four cells and the cells `after` the array in memory, up
to the first NUL. -/
def parse (after : List Byte) (tails : Nat → ArrayTails) (content : List Byte)
    (info : FlacInfo) : Run ParseOut :=
  (loadRange content 0 FLAC_LENGHT).bind fun cells =>
  if cString (cells.map toChar ++ after) ≠ fLaC then
    .done ⟨NOT_FLAC_FAILED, info, 0, []⟩
  else
    parseLoop tails (content.length + 1) (content.drop FLAC_LENGHT) info FLAC_LENGHT []

/-- The header a block object carries after `parse2` stored the three fields of `h`. -/
def Header.toMetaBlock (h : Header) : MetaBlock := ⟨h.isLastMetaBlock, h.blockType, h.blockSize⟩

/-! ## Example inputs -/

/-- The StreamInfo body of the specification's round-trip example: block sizes 4096 and
4096, frame sizes 14 and 16384, sample rate 44100, stored channel field 1, stored
bits-per-sample field 15, 1000000 samples, and a zero digest. -/
def exampleStreamInfoBody : List Byte :=
  [0x10, 0x00, 0x10, 0x00, 0x00, 0x00, 0x0e, 0x00, 0x40, 0x00, 0x0a, 0xc4, 0x42, 0xf0,
   0x00, 0x0f, 0x42, 0x40, 0, 0, 0, 0, 0, 0, 0, 0, 0, 0, 0, 0, 0, 0, 0, 0]

/-- The example StreamInfo body with its first two cells (the minimum block size field)
replaced by `a`, `b`. -/
def exampleBodyWithMinBlock (a b : Byte) : List Byte := a :: b :: exampleStreamInfoBody.drop 2

/-! ## Streams of blocks, for stating the driver's behaviour -/

/-- A metadata block as it lies in a file: its 7-bit type code and its body. -/
structure Block where
  blockType : Fin 128
  body : List Byte
deriving DecidableEq

/-- The four header cells of a block: final flag and type code, then the body size as a
24-bit big-endian number. -/
def headerCells (final : Bool) (blockType : Fin 128) (size : Nat) : List Byte :=
  [toChar ((if final then 128 else 0) + blockType.val), toChar (size / 65536),
    toChar (size / 256), toChar size]

/-- The cells of one block: header, then body. -/
def Block.cells (final : Bool) (b : Block) : List Byte :=
  headerCells final b.blockType b.body.length ++ b.body

/-- The cells of a sequence of blocks in which only the last header has the final flag. -/
def stream : List Block → List Byte
  | [] => []
  | [b] => b.cells true
  | b :: b1 :: bs => b.cells false ++ stream (b1 :: bs)

/-- Whether a run ended with a result. -/
def Run.isDone {α : Type} : Run α → Bool
  | .done _ => true
  | _ => false

/-- Whether the decoder `parse2` selects for the block (if any) runs to its end on the
body, that is, reads no cell outside the body and stores none outside a string. -/
def Block.decodes (b : Block) : Bool :=
  (dispatch ArrayTails.nul ⟨false, (b.blockType.val : Int), (b.body.length : Int)⟩
    b.body {}).isDone

/-- The offset of each block of a sequence that starts at offset `off`: every block takes
4 header cells and its body. -/
def callOffsets (off : Int) : List Block → List Int
  | [] => []
  | b :: bs => off :: callOffsets (off + (4 + (b.body.length : Int))) bs

/-- The number of cells of a sequence of blocks: 4 header cells and the body, each. -/
def totalCells (blocks : List Block) : Int :=
  (blocks.map fun b => 4 + (b.body.length : Int)).sum

/-- A small stream: a StreamInfo block, an Application block (type 2, not decoded), a
Padding block and a final block with the unassigned type code 9. -/
def exampleBlocks : List Block :=
  [⟨0, exampleStreamInfoBody⟩, ⟨2, [1, 2, 3, 4, 5]⟩, ⟨1, [0, 0, 0]⟩, ⟨9, [7]⟩]

/-! ## Vorbis comment bodies, for stating the comment decoder's behaviour -/

/-- The comment entries the `while` loop of `parseVorbisComment` reads, in order: the
locals `key`, `value` at line 470 of every round (a ghost of `vorbisLoop`, which folds the
same entries into the map). -/
def commentsLoop (data : List Byte) (size : Int) : Nat → Nat → Run (List CommentAcc)
  | 0, _ => .outOfFuel
  | fuel + 1, use =>
    if (use : Int) < size then
      (readComment data use).bind fun r =>
      (commentsLoop data size fuel r.2).bind fun rest =>
      .done (r.1 :: rest)
    else .done []

/-- The comment entries `parseVorbisComment` reads from a body, in order. -/
def commentsRead (data : List Byte) (size : Int) : Run (List CommentAcc) :=
  commentsLoop data size (data.length + 1) (39 + 1)

/-- Lines 447–452 and the reads of line 455 of `parseVorbisComment`: the length field at
`use` and the cells of the comment, before they are split into `key` and `value`; gives
the cells and the new `use` (a ghost of `readComment`). -/
def readCommentCells (data : List Byte) (use : Nat) : Run (List Byte × Nat) :=
  (load data use).bind fun b0 =>
  (load data (use + 1)).bind fun b1 =>
  (load data (use + 2)).bind fun b2 =>
  (load data (use + 3)).bind fun b3 =>
  let length := (b0 &&& 0x00ff) ||| shl (b1 &&& 0x00ff) 8 ||| shl (b2 &&& 0x00ff) 16
    ||| shl (b3 &&& 0x00ff) 24
  (readChars data (use + 4) (toInt length)).bind fun cells =>
  .done (cells, use + 3 + (toInt length).toNat + 1)

/-- The cells of every comment entry the `while` loop of `parseVorbisComment` reads, in
order (a ghost of `vorbisLoop`). -/
def commentCellsLoop (data : List Byte) (size : Int) : Nat → Nat → Run (List (List Byte))
  | 0, _ => .outOfFuel
  | fuel + 1, use =>
    if (use : Int) < size then
      (readCommentCells data use).bind fun r =>
      (commentCellsLoop data size fuel r.2).bind fun rest =>
      .done (r.1 :: rest)
    else .done []

/-- The cells of every comment entry `parseVorbisComment` reads from a body, in order. -/
def commentCellsRead (data : List Byte) (size : Int) : Run (List (List Byte)) :=
  commentCellsLoop data size (data.length + 1) (39 + 1)

/-- The values of the entries whose key is `key`, in the order of the entries. -/
def valuesOf (key : List Byte) (entries : List CommentAcc) : List (List Byte) :=
  (entries.filter fun e => e.key = key).map fun e => e.value

/-- The cells of an ASCII text. -/
def ascii (s : String) : List Byte := s.toList.map fun c => toChar c.toNat

/-- A 32-bit little-endian length field. -/
def le32 (n : Nat) : List Byte :=
  [toChar n, toChar (n / 256), toChar (n / 65536), toChar (n / 16777216)]

/-- A VorbisComment body: vendor length and vendor string, comment count, then every
comment with its length in front. -/
def vorbisBody (vendor : List Byte) (comments : List (List Byte)) : List Byte :=
  le32 vendor.length ++ vendor ++ le32 comments.length
    ++ (comments.map fun c => le32 c.length ++ c).flatten

/-- The vendor string of the reference encoder, 32 cells long. -/
def exampleVendor : List Byte := ascii "reference libFLAC 1.3.2 20170101"

/-- A body with the reference vendor string and the two comments `ARTIST=A`, `ARTIST=B`. -/
def exampleArtistBody : List Byte :=
  vorbisBody exampleVendor [ascii "ARTIST=A", ascii "ARTIST=B"]

/-- A body with the reference vendor string and the single comment `URL=a=b`. -/
def exampleUrlBody : List Byte := vorbisBody exampleVendor [ascii "URL=a=b"]

/-- A body with the reference vendor string and the two comments `artist=A`, `ARTIST=B`. -/
def exampleMixedCaseBody : List Byte :=
  vorbisBody exampleVendor [ascii "artist=A", ascii "ARTIST=B"]

/-- A body with the reference vendor string and the two comments `ARTIST=A`, `NOSEP`. -/
def exampleNoSeparatorBody : List Byte :=
  vorbisBody exampleVendor [ascii "ARTIST=A", ascii "NOSEP"]

/-- A body with an empty vendor string (`L = 0`) and the single comment `A=B`. -/
def exampleEmptyVendorBody : List Byte := vorbisBody [] [ascii "A=B"]

/-! ## Seek tables, for stating the seek-table decoder's behaviour -/

/-- The seek point the loop of `parseSeekTable` builds in the round that starts at `use`
(lines 423–432): two empty strings, and the count from the two cells at `use + 16` and
`use + 17`, each taken through `&& 0x00ff`. -/
def seekPointAt (data : List Byte) (use : Nat) : SeekPoint :=
  { sampleNumber := []
    frameOffset := []
    targetFrameSampleCount :=
      toShort (shl (logAnd (promote (data.getD (use + 16) 0)) 0x00ff) 8
        ||| logAnd (promote (data.getD (use + 17) 0)) 0x00ff) }

/-- A placeholder seek point: sample number `0xFFFFFFFFFFFFFFFF`, frame offset `0x1000`,
4096 samples in the target frame. -/
def examplePlaceholderPoint : List Byte :=
  [0xff, 0xff, 0xff, 0xff, 0xff, 0xff, 0xff, 0xff, 0, 0, 0, 0, 0, 0, 0x10, 0x00, 0x10, 0x00]

/-- A seek table of two points: sample 0 at offset 0 with 4096 samples, then the
placeholder point. -/
def exampleSeekBody : List Byte :=
  [0, 0, 0, 0, 0, 0, 0, 0, 0, 0, 0, 0, 0, 0, 0, 0, 0x10, 0x00] ++ examplePlaceholderPoint

/-- A seek-table body of 19 cells: one point and one cell more. -/
def exampleSeekBodyWithRemainder : List Byte := examplePlaceholderPoint ++ [0]

/-- A stream cut short: the marker, the final StreamInfo header `80 00 00 22` that
declares 34 body cells, and only the first 10 cells of the example body. -/
def exampleTruncatedStream : List Byte :=
  fLaC ++ (0x80 :: 0x00 :: 0x00 :: 0x22 :: exampleStreamInfoBody.take 10)

/-- Two VorbisComment blocks: the first with the comments `ARTIST=A`, `ARTIST=B`, the
second with the comment `URL=a=b`. -/
def exampleTwoComments : List Block := [⟨4, exampleArtistBody⟩, ⟨4, exampleUrlBody⟩]

/-! ## Picture bodies, for stating the picture decoder's behaviour -/

/-- A 32-bit big-endian field. -/
def be32cells (n : Nat) : List Byte :=
  [toChar (n / 16777216), toChar (n / 65536), toChar (n / 256), toChar n]

/-- A Picture body: type, MIME string and description with their lengths in front, width,
height, colour depth, number of colours, and the picture data with its length in front. -/
def pictureBody (pictureType : Nat) (mime desc : List Byte) (width height depth colors : Nat)
    (data : List Byte) : List Byte :=
  be32cells pictureType ++ (be32cells mime.length ++ (mime ++ (be32cells desc.length ++
    (desc ++ (be32cells width ++ (be32cells height ++ (be32cells depth ++
      (be32cells colors ++ (be32cells data.length ++ data)))))))))

/-- A front-cover picture (type 3) of MIME type `image/png`, 16 by 16 pixels, 24 bits deep,
with three data cells and a description of three cells, the second of which is NUL. -/
def examplePictureBody : List Byte :=
  pictureBody 3 (ascii "image/png") [97, 0, 98] 16 16 24 0 [1, 2, 3]

/-! # Theorems -/

/-! ## Lemmas on the machine model -/

@[simp] theorem Run.done_bind {α β : Type} (a : α) (f : α → Run β) : (Run.done a).bind f = f a := rfl

@[simp] theorem Run.outOfBounds_bind {α β : Type} (f : α → Run β) :
    (Run.outOfBounds : Run α).bind f = Run.outOfBounds := rfl

@[simp] theorem Run.outOfFuel_bind {α β : Type} (f : α → Run β) :
    (Run.outOfFuel : Run α).bind f = Run.outOfFuel := rfl

theorem Run.bind_eq_done {α β : Type} {x : Run α} {f : α → Run β} {b : β}
    (h : x.bind f = Run.done b) : ∃ a, x = Run.done a ∧ f a = Run.done b := by
  cases x with
  | done a => exact ⟨a, rfl, h⟩
  | outOfBounds => cases h
  | outOfFuel => cases h

theorem lor_eq_add (k : Nat) {x y : Nat} (hx : x % 2 ^ k = 0) (hy : y < 2 ^ k) :
    x ||| y = x + y := by
  obtain ⟨a, rfl⟩ := Nat.dvd_of_mod_eq_zero hx
  exact (Nat.mul_add_lt_is_or hy a).symm

theorem land_255 (x : Nat) : x &&& 255 = x % 256 := Nat.and_pow_two_sub_one_eq_mod x 8
theorem land_127 (x : Nat) : x &&& 127 = x % 128 := Nat.and_pow_two_sub_one_eq_mod x 7
theorem land_15 (x : Nat) : x &&& 15 = x % 16 := Nat.and_pow_two_sub_one_eq_mod x 4
theorem land_7 (x : Nat) : x &&& 7 = x % 8 := Nat.and_pow_two_sub_one_eq_mod x 3
theorem land_1 (x : Nat) : x &&& 1 = x % 2 := Nat.and_pow_two_sub_one_eq_mod x 1

theorem promote_land_255 (b : Byte) : promote b &&& 255 = b.val := by
  have := b.isLt
  rw [land_255]; unfold promote; split <;> omega

theorem promote_land_127 (b : Byte) : promote b &&& 127 = b.val % 128 := by
  have := b.isLt
  rw [land_127]; unfold promote; split <;> omega

theorem toBool_sar_promote (b : Byte) : toBool (sar (promote b) 7) = decide (128 ≤ b.val) := by
  have := b.isLt
  unfold toBool
  apply decide_eq_decide.mpr
  unfold sar promote
  simp only [Nat.shiftRight_eq_div_pow]
  by_cases hb : b.val < 128
  · rw [if_pos hb, if_pos (by omega)]
    omega
  · rw [if_neg hb, if_neg (by omega)]
    omega

theorem toInt_of_lt {x : Nat} (h : x < 2147483648) : toInt x = (x : Int) := by
  unfold toInt
  have : x % 4294967296 = x := Nat.mod_eq_of_lt (by omega)
  rw [this, if_pos h]

theorem be24_eq (a b c : Nat) (ha : a < 256) (hb : b < 256) (hc : c < 256) :
    (shl a 16 ||| shl b 8) ||| c = a * 65536 + b * 256 + c := by
  unfold shl
  simp only [Nat.shiftLeft_eq]
  rw [Nat.mod_eq_of_lt (by omega), Nat.mod_eq_of_lt (by omega)]
  have e1 : a * 2 ^ 16 ||| b * 2 ^ 8 = a * 2 ^ 16 + b * 2 ^ 8 :=
    lor_eq_add 16 (by omega) (by omega)
  rw [e1]
  have e2 : (a * 2 ^ 16 + b * 2 ^ 8) ||| c = a * 2 ^ 16 + b * 2 ^ 8 + c :=
    lor_eq_add 8 (by omega) (by omega)
  rw [e2]
  omega

theorem load_cons_zero (b : Byte) (l : List Byte) : load (b :: l) 0 = Run.done (promote b) := by
  simp [load]

theorem load_cons_succ (b : Byte) (l : List Byte) (i : Nat) : load (b :: l) (i + 1) = load l i := by
  simp [load]

theorem readHeader_cons (b0 b1 b2 b3 : Byte) (rest : List Byte) :
    readHeader (b0 :: b1 :: b2 :: b3 :: rest) =
      Run.done ⟨decide (128 ≤ b0.val), ((b0.val % 128 : Nat) : Int),
        ((b1.val * 65536 + b2.val * 256 + b3.val : Nat) : Int)⟩ := by
  have h1 := b1.isLt
  have h2 := b2.isLt
  have h3 := b3.isLt
  have h0 := b0.isLt
  have e1 : load (b0 :: b1 :: b2 :: b3 :: rest) 1 = Run.done (promote b1) := by simp [load]
  have e2 : load (b0 :: b1 :: b2 :: b3 :: rest) 2 = Run.done (promote b2) := by simp [load]
  have e3 : load (b0 :: b1 :: b2 :: b3 :: rest) 3 = Run.done (promote b3) := by simp [load]
  unfold readHeader
  rw [load_cons_zero, e1, e2, e3]
  simp only [Run.done_bind, promote_land_255, promote_land_127, toBool_sar_promote]
  rw [be24_eq _ _ _ h1 h2 h3, toInt_of_lt (by omega), toInt_of_lt (by omega)]

theorem toChar_promote (b : Byte) : toChar (promote b) = b := by
  have := b.isLt
  apply Fin.ext
  show promote b % 256 = b.val
  unfold promote
  split <;> omega

theorem toChar_promote_land (b : Byte) : toChar (promote b &&& 255) = b := by
  have := b.isLt
  apply Fin.ext
  show (promote b &&& 255) % 256 = b.val
  rw [promote_land_255]
  omega

theorem load_eq_done {data : List Byte} {i : Nat} (h : i < data.length) :
    load data i = Run.done (promote data[i]) := by
  simp [load, List.getElem?_eq_getElem h]

theorem load_eq_outOfBounds {data : List Byte} {i : Nat} (h : data.length ≤ i) :
    load data i = Run.outOfBounds := by
  simp [load, List.getElem?_eq_none h]

theorem loadRange_eq_done (data : List Byte) :
    ∀ (n start : Nat), start + n ≤ data.length →
      loadRange data start n = Run.done (((data.drop start).take n).map promote) := by
  intro n
  induction n with
  | zero => intro start _; simp [loadRange]
  | succ n ih =>
    intro start h
    have hs : start < data.length := by omega
    rw [loadRange, load_eq_done hs, Run.done_bind, ih (start + 1) (by omega), Run.done_bind,
      List.drop_eq_getElem_cons hs, List.take_succ_cons, List.map_cons]

theorem loadRange_eq_outOfBounds (data : List Byte) :
    ∀ (n start : Nat), 0 < n → data.length < start + n →
      loadRange data start n = Run.outOfBounds := by
  intro n
  induction n with
  | zero => intro start h0 _; omega
  | succ n ih =>
    intro start _ h
    by_cases hs : start < data.length
    · rw [loadRange, load_eq_done hs, Run.done_bind, ih (start + 1) (by omega) (by omega),
        Run.outOfBounds_bind]
    · rw [loadRange, load_eq_outOfBounds (by omega), Run.outOfBounds_bind]

theorem readChars_eq_done (data : List Byte) (start : Nat) (n : Int)
    (h : start + n.toNat ≤ data.length) :
    readChars data start n = Run.done ((data.drop start).take n.toNat) := by
  unfold readChars
  rw [loadRange_eq_done data _ _ h, Run.done_bind, List.map_map]
  have : (fun c => toChar (c &&& 255)) ∘ promote = id := funext toChar_promote_land
  rw [this, List.map_id]

theorem copyBody_eq_done (data : List Byte) (index : Nat) (blockSize : Nat)
    (h : index + blockSize ≤ data.length) :
    copyBody data index (blockSize : Int) = Run.done ((data.drop index).take blockSize) := by
  unfold copyBody
  rw [Int.toNat_ofNat, loadRange_eq_done data _ _ h, Run.done_bind, List.map_map]
  have : toChar ∘ promote = id := funext toChar_promote
  rw [this, List.map_id]

theorem storeCells_eq_done (data : List Byte) (start n : Nat) (h : start + n ≤ data.length)
    (hn : n ≤ 16) : storeCells data start n = Run.done () := by
  unfold storeCells
  rw [loadRange_eq_done data _ _ h, Run.done_bind, if_pos hn]

theorem storeCells_eq_outOfBounds (data : List Byte) (start n : Nat)
    (h : (0 < n ∧ data.length < start + n) ∨ 16 < n) :
    storeCells data start n = Run.outOfBounds := by
  unfold storeCells
  by_cases hin : start + n ≤ data.length
  · rw [loadRange_eq_done data _ _ hin, Run.done_bind, if_neg (by omega)]
  · rw [loadRange_eq_outOfBounds data _ _ (by omega) (by omega), Run.outOfBounds_bind]

/-! ## The dispatcher `parse2` -/


theorem dispatch_stores {tails : ArrayTails} {h : Header} {realData : List Byte}
    {info info1 : FlacInfo} (hd : dispatch tails h realData info = Run.done info1) :
    (h.blockType = 0 → info1.streamInfo.map StreamInfo.toMetaBlock = some h.toMetaBlock)
    ∧ (h.blockType = 6 → info1.picture.map Picture.toMetaBlock = some h.toMetaBlock)
    ∧ (h.blockType = 3 → info1.seekTable.map SeekTable.toMetaBlock = some h.toMetaBlock)
    ∧ (h.blockType = 4 → info1.vorbisComment.map VorbisComment.toMetaBlock = some h.toMetaBlock)
    ∧ (h.blockType = 1 → info1.padding.map Padding.toMetaBlock = some h.toMetaBlock) := by
  unfold dispatch at hd
  simp only [META_TYPE_STREAM_INFO, META_TYPE_PICTURE, META_TYPE_SEEK_TABLE,
    META_TYPE_VORBIS_COMMENT, META_TYPE_PADDING] at hd
  split_ifs at hd with t0 t6 t3 t4 t1
  · obtain ⟨b, -, e⟩ := Run.bind_eq_done hd
    cases e
    refine ⟨fun _ => rfl, ?_, ?_, ?_, ?_⟩ <;> intro t <;> omega
  · obtain ⟨b, -, e⟩ := Run.bind_eq_done hd
    cases e
    refine ⟨?_, fun _ => rfl, ?_, ?_, ?_⟩ <;> intro t <;> omega
  · obtain ⟨b, -, e⟩ := Run.bind_eq_done hd
    cases e
    refine ⟨?_, ?_, fun _ => rfl, ?_, ?_⟩ <;> intro t <;> omega
  · obtain ⟨b, -, e⟩ := Run.bind_eq_done hd
    cases e
    refine ⟨?_, ?_, ?_, fun _ => rfl, ?_⟩ <;> intro t <;> omega
  · obtain ⟨b, -, e⟩ := Run.bind_eq_done hd
    cases e
    refine ⟨?_, ?_, ?_, ?_, fun _ => rfl⟩ <;> intro t <;> omega
  · refine ⟨?_, ?_, ?_, ?_, ?_⟩ <;> intro t <;> omega

theorem parse2_eq_done {tails : ArrayTails} {data : List Byte} {info : FlacInfo}
    {out : Parse2Out} (hrun : parse2 tails data info = Run.done out) :
    ∃ h realData, readHeader data = Run.done h ∧ copyBody data 4 h.blockSize = Run.done realData
      ∧ dispatch tails h realData info = Run.done out.info
      ∧ out.result = 4 + h.blockSize ∧ out.isFinal = h.isLastMetaBlock := by
  unfold parse2 at hrun
  obtain ⟨h, hh, hrun⟩ := Run.bind_eq_done hrun
  obtain ⟨realData, hc, hrun⟩ := Run.bind_eq_done hrun
  obtain ⟨info1, hd, hrun⟩ := Run.bind_eq_done hrun
  cases hrun
  exact ⟨h, realData, hh, hc, hd, rfl, rfl⟩

/-- C1: for every 4-byte header `b0 b1 b2 b3`, `parse2` decodes `isFinal` as "bit 7 of `b0`
is set", `blockType` as `b0 mod 128` and `blockSize` as `b1*65536 + b2*256 + b3`, a value
between 0 and 16,777,215; and in every run of `parse2` that decodes a block (types 0, 6,
3, 4, 1) these three values are the header fields of the block object it stores. -/
theorem parse2_header_fields (tails : ArrayTails) (b0 b1 b2 b3 : Byte) (rest : List Byte)
    (info : FlacInfo) (out : Parse2Out)
    (hrun : parse2 tails (b0 :: b1 :: b2 :: b3 :: rest) info = Run.done out) :
    readHeader (b0 :: b1 :: b2 :: b3 :: rest) =
        Run.done ⟨decide (128 ≤ b0.val), ((b0.val % 128 : Nat) : Int),
          ((b1.val * 65536 + b2.val * 256 + b3.val : Nat) : Int)⟩
    ∧ b1.val * 65536 + b2.val * 256 + b3.val ≤ 16777215
    ∧ (b0.val % 128 = 0 → out.info.streamInfo.map StreamInfo.toMetaBlock =
        some ⟨decide (128 ≤ b0.val), 0, ((b1.val * 65536 + b2.val * 256 + b3.val : Nat) : Int)⟩)
    ∧ (b0.val % 128 = 6 → out.info.picture.map Picture.toMetaBlock =
        some ⟨decide (128 ≤ b0.val), 6, ((b1.val * 65536 + b2.val * 256 + b3.val : Nat) : Int)⟩)
    ∧ (b0.val % 128 = 3 → out.info.seekTable.map SeekTable.toMetaBlock =
        some ⟨decide (128 ≤ b0.val), 3, ((b1.val * 65536 + b2.val * 256 + b3.val : Nat) : Int)⟩)
    ∧ (b0.val % 128 = 4 → out.info.vorbisComment.map VorbisComment.toMetaBlock =
        some ⟨decide (128 ≤ b0.val), 4, ((b1.val * 65536 + b2.val * 256 + b3.val : Nat) : Int)⟩)
    ∧ (b0.val % 128 = 1 → out.info.padding.map Padding.toMetaBlock =
        some ⟨decide (128 ≤ b0.val), 1, ((b1.val * 65536 + b2.val * 256 + b3.val : Nat) : Int)⟩) := by
  have h1 := b1.isLt
  have h2 := b2.isLt
  have h3 := b3.isLt
  obtain ⟨h, realData, hh, -, hd, -, -⟩ := parse2_eq_done hrun
  rw [readHeader_cons] at hh
  cases hh
  obtain ⟨s0, s6, s3, s4, s1⟩ := dispatch_stores hd
  simp only [Header.toMetaBlock] at s0 s6 s3 s4 s1
  refine ⟨readHeader_cons b0 b1 b2 b3 rest, by omega, ?_, ?_, ?_, ?_, ?_⟩
  · intro t; rw [s0 (by simp [t]), t]; rfl
  · intro t; rw [s6 (by simp [t]), t]; rfl
  · intro t; rw [s3 (by simp [t]), t]; rfl
  · intro t; rw [s4 (by simp [t]), t]; rfl
  · intro t; rw [s1 (by simp [t]), t]; rfl

/-- Witness for C1: the final StreamInfo header `80 00 00 22` followed by the example body. -/
theorem parse2_header_fields_witness :
    ∃ out, parse2 ArrayTails.nul (0x80 :: 0x00 :: 0x00 :: 0x22 :: exampleStreamInfoBody) {} =
        Run.done out
      ∧ out.info.streamInfo.map StreamInfo.toMetaBlock = some ⟨true, 0, 34⟩ :=
  ⟨_, rfl, (parse2_header_fields ArrayTails.nul 0x80 0x00 0x00 0x22 exampleStreamInfoBody {} _
    rfl).2.2.1 (by decide)⟩

theorem dispatch_skip {tails : ArrayTails} {h : Header} (realData : List Byte) (info : FlacInfo)
    (t0 : h.blockType ≠ 0) (t6 : h.blockType ≠ 6) (t3 : h.blockType ≠ 3)
    (t4 : h.blockType ≠ 4) (t1 : h.blockType ≠ 1) :
    dispatch tails h realData info = Run.done info := by
  unfold dispatch
  simp only [META_TYPE_STREAM_INFO, META_TYPE_PICTURE, META_TYPE_SEEK_TABLE,
    META_TYPE_VORBIS_COMMENT, META_TYPE_PADDING]
  rw [if_neg t0, if_neg t6, if_neg t3, if_neg t4, if_neg t1]

theorem parse2_cons (tails : ArrayTails) (b0 b1 b2 b3 : Byte) (rest : List Byte)
    (info : FlacInfo) (hbody : b1.val * 65536 + b2.val * 256 + b3.val ≤ rest.length) :
    parse2 tails (b0 :: b1 :: b2 :: b3 :: rest) info =
      (dispatch tails ⟨decide (128 ≤ b0.val), ((b0.val % 128 : Nat) : Int),
          ((b1.val * 65536 + b2.val * 256 + b3.val : Nat) : Int)⟩
        (rest.take (b1.val * 65536 + b2.val * 256 + b3.val)) info).bind fun info1 =>
      Run.done ⟨4 + ((b1.val * 65536 + b2.val * 256 + b3.val : Nat) : Int), info1,
        decide (128 ≤ b0.val)⟩ := by
  unfold parse2
  rw [readHeader_cons, Run.done_bind]
  simp only []
  rw [copyBody_eq_done _ _ _ (by simp only [List.length_cons]; omega), Run.done_bind]
  rfl

/-- A run of `parse2` that returns, returns `4 + blockSize`, which is not `PARSE_FAILED`,
and reports the final flag of the header. -/
theorem parse2_result (tails : ArrayTails) (b0 b1 b2 b3 : Byte) (rest : List Byte)
    (info : FlacInfo) (out : Parse2Out)
    (hrun : parse2 tails (b0 :: b1 :: b2 :: b3 :: rest) info = Run.done out) :
    out.result = 4 + ((b1.val * 65536 + b2.val * 256 + b3.val : Nat) : Int)
      ∧ out.result ≠ PARSE_FAILED
      ∧ out.isFinal = decide (128 ≤ b0.val) := by
  obtain ⟨h, realData, hh, -, -, hres, hfin⟩ := parse2_eq_done hrun
  rw [readHeader_cons] at hh
  cases hh
  refine ⟨hres, ?_, hfin⟩
  rw [hres]
  simp only [PARSE_FAILED]
  omega

/-- For a type code other than 0, 1, 3, 4, 6 and a body that lies in the buffer, `parse2`
returns with the aggregate untouched. -/
theorem parse2_skip (tails : ArrayTails) (b0 b1 b2 b3 : Byte) (rest : List Byte)
    (info : FlacInfo) (hbody : b1.val * 65536 + b2.val * 256 + b3.val ≤ rest.length)
    (t0 : b0.val % 128 ≠ 0) (t1 : b0.val % 128 ≠ 1) (t3 : b0.val % 128 ≠ 3)
    (t4 : b0.val % 128 ≠ 4) (t6 : b0.val % 128 ≠ 6) :
    parse2 tails (b0 :: b1 :: b2 :: b3 :: rest) info =
      Run.done ⟨4 + ((b1.val * 65536 + b2.val * 256 + b3.val : Nat) : Int), info,
        decide (128 ≤ b0.val)⟩ := by
  rw [parse2_cons _ _ _ _ _ _ _ hbody, dispatch_skip _ _ (by simp only []; omega)
    (by simp only []; omega) (by simp only []; omega) (by simp only []; omega)
    (by simp only []; omega)]
  rfl
/-! ## The StreamInfo decoder -/

theorem promote_land_15 (b : Byte) : promote b &&& 15 = b.val % 16 := by
  have := b.isLt
  rw [land_15]; unfold promote; split <;> omega

theorem promote_land_1 (b : Byte) : promote b &&& 1 = b.val % 2 := by
  have := b.isLt
  rw [land_1]; unfold promote; split <;> omega

theorem sar_promote_land_7 (b : Byte) : sar (promote b) 1 &&& 7 = b.val / 2 % 8 := by
  have := b.isLt
  rw [land_7]
  unfold sar promote
  simp only [Nat.shiftRight_eq_div_pow]
  by_cases hb : b.val < 128
  · simp only [if_pos hb, if_pos (show b.val < 2147483648 by omega)]
  · rw [if_neg hb, if_neg (by omega)]
    omega

theorem sar_of_lt {x : Nat} (k : Nat) (h : x < 2147483648) : sar x k = x / 2 ^ k := by
  unfold sar
  rw [if_pos h, Nat.shiftRight_eq_div_pow]

theorem shl_of_lt {x k : Nat} (h : x * 2 ^ k < 4294967296) : shl x k = x * 2 ^ k := by
  unfold shl
  rw [Nat.shiftLeft_eq, Nat.mod_eq_of_lt h]

theorem shl64_of_lt {x k : Nat} (h : x * 2 ^ k < 18446744073709551616) :
    shl64 x k = x * 2 ^ k := by
  unfold shl64
  rw [Nat.shiftLeft_eq, Nat.mod_eq_of_lt h]

theorem widen_of_lt {x : Nat} (h : x < 2147483648) : widen x = x := by
  unfold widen
  rw [if_pos h]

theorem toShort_of_lt {x : Nat} (h : x < 32768) : toShort x = (x : Int) := by
  unfold toShort
  have : x % 65536 = x := Nat.mod_eq_of_lt (by omega)
  rw [this, if_pos h]

theorem toLong_of_lt {x : Nat} (h : x < 9223372036854775808) : toLong x = (x : Int) := by
  unfold toLong
  have : x % 18446744073709551616 = x := Nat.mod_eq_of_lt (by omega)
  rw [this, if_pos h]

theorem sampleRate_eq (a b c : Nat) (ha : a < 256) (hb : b < 256) (hc : c < 256) :
    shl (shl a 8 ||| b) 4 ||| sar c 4 = a * 4096 + b * 16 + c / 16 := by
  rw [shl_of_lt (by omega : a * 2 ^ 8 < 4294967296)]
  have e1 : a * 2 ^ 8 ||| b = a * 2 ^ 8 + b := lor_eq_add 8 (by omega) (by omega)
  rw [e1, shl_of_lt (by omega), sar_of_lt 4 (by omega)]
  have e2 : (a * 2 ^ 8 + b) * 2 ^ 4 ||| c / 2 ^ 4 = (a * 2 ^ 8 + b) * 2 ^ 4 + c / 2 ^ 4 :=
    lor_eq_add 4 (by omega) (by omega)
  rw [e2]
  omega

theorem bitsPerSample_eq (a b : Nat) (ha : a < 2) (hb : b < 256) :
    shl a 4 ||| sar b 4 = a * 16 + b / 16 := by
  rw [shl_of_lt (by omega), sar_of_lt 4 (by omega)]
  have e : a * 2 ^ 4 ||| b / 2 ^ 4 = a * 2 ^ 4 + b / 2 ^ 4 := lor_eq_add 4 (by omega) (by omega)
  rw [e]
  omega

theorem totalSampleCount_eq (a b c d e : Nat) (ha : a < 16) (hb : b < 256) (hc : c < 256)
    (hd : d < 256) (he : e < 256) :
    shl64 (widen a) 32 ||| shl64 (widen b) 24 ||| widen (shl c 16) ||| widen (shl d 8)
        ||| widen e
      = a * 4294967296 + b * 16777216 + c * 65536 + d * 256 + e := by
  rw [widen_of_lt (by omega : a < 2147483648), widen_of_lt (by omega : b < 2147483648),
    shl64_of_lt (by omega), shl64_of_lt (by omega),
    shl_of_lt (by omega : c * 2 ^ 16 < 4294967296), shl_of_lt (by omega : d * 2 ^ 8 < 4294967296),
    widen_of_lt (by omega : c * 2 ^ 16 < 2147483648), widen_of_lt (by omega : d * 2 ^ 8 < 2147483648),
    widen_of_lt (by omega : e < 2147483648)]
  have e1 : a * 2 ^ 32 ||| b * 2 ^ 24 = a * 2 ^ 32 + b * 2 ^ 24 :=
    lor_eq_add 32 (by omega) (by omega)
  rw [e1]
  have e2 : (a * 2 ^ 32 + b * 2 ^ 24) ||| c * 2 ^ 16 = a * 2 ^ 32 + b * 2 ^ 24 + c * 2 ^ 16 :=
    lor_eq_add 24 (by omega) (by omega)
  rw [e2]
  have e3 : (a * 2 ^ 32 + b * 2 ^ 24 + c * 2 ^ 16) ||| d * 2 ^ 8
      = a * 2 ^ 32 + b * 2 ^ 24 + c * 2 ^ 16 + d * 2 ^ 8 :=
    lor_eq_add 16 (by omega) (by omega)
  rw [e3]
  have e4 : (a * 2 ^ 32 + b * 2 ^ 24 + c * 2 ^ 16 + d * 2 ^ 8) ||| e
      = a * 2 ^ 32 + b * 2 ^ 24 + c * 2 ^ 16 + d * 2 ^ 8 + e :=
    lor_eq_add 8 (by omega) (by omega)
  rw [e4]
  omega

/-- The block object `parseStreamInfo` builds from a body whose first 18 cells are
`d0 … d17`, when the `size - 18` cells after them are in the buffer and are at most 16. -/
theorem parseStreamInfo_cons (d0 d1 d2 d3 d4 d5 d6 d7 d8 d9 d10 d11 d12 d13 d14 d15 d16 d17 : Byte)
    (tail : List Byte) (size : Int) (hsize : (size - 18).toNat ≤ tail.length)
    (hstore : (size - 18).toNat ≤ 16) :
    parseStreamInfo (d0 :: d1 :: d2 :: d3 :: d4 :: d5 :: d6 :: d7 :: d8 :: d9 :: d10 :: d11 ::
        d12 :: d13 :: d14 :: d15 :: d16 :: d17 :: tail) size =
      Run.done
        { MetaBlock.zero with
          minimunBlockSize := toShort (shl (promote d0) 8 ||| promote d1)
          maximumBlockSize := toShort (shl (promote d2) 8 ||| promote d3)
          minimumFrameSize := ((d4.val * 65536 + d5.val * 256 + d6.val : Nat) : Int)
          maximumFrameSize := ((d7.val * 65536 + d8.val * 256 + d9.val : Nat) : Int)
          sampleRate := ((d10.val * 4096 + d11.val * 16 + d12.val / 16 : Nat) : Int)
          numberOfChannels := ((d12.val / 2 % 8 : Nat) : Int)
          bitsPerSample := ((d12.val % 2 * 16 + d13.val / 16 : Nat) : Int)
          totalSampleCount := ((d13.val % 16 * 4294967296 + d14.val * 16777216 + d15.val * 65536
            + d16.val * 256 + d17.val : Nat) : Int)
          md5Info := [] } := by
  have h4 := d4.isLt
  have h5 := d5.isLt
  have h6 := d6.isLt
  have h7 := d7.isLt
  have h8 := d8.isLt
  have h9 := d9.isLt
  have h10 := d10.isLt
  have h11 := d11.isLt
  have h12 := d12.isLt
  have h13 := d13.isLt
  have h14 := d14.isLt
  have h15 := d15.isLt
  have h16 := d16.isLt
  have h17 := d17.isLt
  unfold parseStreamInfo
  simp only [load_cons_succ, load_cons_zero, Run.done_bind]
  rw [storeCells_eq_done _ _ _ (by simp only [List.length_cons]; omega) hstore]
  simp only [Run.done_bind, promote_land_255, promote_land_15, promote_land_1,
    sar_promote_land_7]
  rw [be24_eq _ _ _ h4 h5 h6, be24_eq _ _ _ h7 h8 h9, sampleRate_eq _ _ _ h10 h11 h12,
    bitsPerSample_eq _ _ (by omega) h13,
    totalSampleCount_eq _ _ _ _ _ (by omega) h14 h15 h16 h17,
    toInt_of_lt (by omega), toInt_of_lt (by omega), toInt_of_lt (by omega),
    toShort_of_lt (by omega : d12.val / 2 % 8 < 32768),
    toShort_of_lt (by omega : d12.val % 2 * 16 + d13.val / 16 < 32768), toLong_of_lt (by omega)]

/-- C6: for every 34-byte StreamInfo body `d0 … d17` followed by 16 digest cells,
`parseStreamInfo` returns a block with `minimumFrameSize` the 24-bit big-endian value of
`d4 d5 d6`, `maximumFrameSize` that of `d7 d8 d9`, `sampleRate = d10*4096 + d11*16 +
d12 div 16` and `totalSampleCount = (d13 mod 16)*2^32 + d14*2^24 + d15*2^16 + d16*2^8 +
d17`; an all-zero sample-rate field or sample-count field gives 0, with no error. -/
theorem parseStreamInfo_frames_rate_samples
    (d0 d1 d2 d3 d4 d5 d6 d7 d8 d9 d10 d11 d12 d13 d14 d15 d16 d17 : Byte)
    (md5 : List Byte) (hlen : md5.length = 16) :
    ∃ si, parseStreamInfo (d0 :: d1 :: d2 :: d3 :: d4 :: d5 :: d6 :: d7 :: d8 :: d9 :: d10 ::
        d11 :: d12 :: d13 :: d14 :: d15 :: d16 :: d17 :: md5) 34 = Run.done si
      ∧ si.minimumFrameSize = ((d4.val * 65536 + d5.val * 256 + d6.val : Nat) : Int)
      ∧ si.maximumFrameSize = ((d7.val * 65536 + d8.val * 256 + d9.val : Nat) : Int)
      ∧ si.sampleRate = ((d10.val * 4096 + d11.val * 16 + d12.val / 16 : Nat) : Int)
      ∧ si.totalSampleCount = ((d13.val % 16 * 4294967296 + d14.val * 16777216
          + d15.val * 65536 + d16.val * 256 + d17.val : Nat) : Int)
      ∧ (d10.val = 0 → d11.val = 0 → d12.val / 16 = 0 → si.sampleRate = 0)
      ∧ (d13.val % 16 = 0 → d14.val = 0 → d15.val = 0 → d16.val = 0 → d17.val = 0 →
          si.totalSampleCount = 0) := by
  refine ⟨_, parseStreamInfo_cons d0 d1 d2 d3 d4 d5 d6 d7 d8 d9 d10 d11 d12 d13 d14 d15 d16 d17
    md5 34 (by rw [hlen]; decide) (by decide), rfl, rfl, rfl, rfl, ?_, ?_⟩
  · intro a b c
    show ((d10.val * 4096 + d11.val * 16 + d12.val / 16 : Nat) : Int) = 0
    rw [a, b, c]; rfl
  · intro a b c d e
    show ((d13.val % 16 * 4294967296 + d14.val * 16777216 + d15.val * 65536 + d16.val * 256
      + d17.val : Nat) : Int) = 0
    rw [a, b, c, d, e]; rfl

/-- Witness for C6: the specification's hand-built body gives minimum frame size 14,
maximum frame size 16384, sample rate 44100 and 1000000 samples. -/
theorem parseStreamInfo_frames_rate_samples_witness :
    ∃ si, parseStreamInfo exampleStreamInfoBody 34 = Run.done si
      ∧ si.minimumFrameSize = 14 ∧ si.maximumFrameSize = 16384 ∧ si.sampleRate = 44100
      ∧ si.totalSampleCount = 1000000 := by
  obtain ⟨si, h, h1, h2, h3, h4, -, -⟩ := parseStreamInfo_frames_rate_samples
    0x10 0x00 0x10 0x00 0x00 0x00 0x0e 0x00 0x40 0x00 0x0a 0xc4 0x42 0xf0 0x00 0x0f 0x42 0x40
    [0, 0, 0, 0, 0, 0, 0, 0, 0, 0, 0, 0, 0, 0, 0, 0] rfl
  exact ⟨si, h, h1, h2, h3, h4⟩

/-- Counterexample to C7 as stated: the body with stored channel field 1 and stored
bits-per-sample field 15 decodes to `numberOfChannels = 1` and `bitsPerSample = 15`,
not to 2 and 16. -/
theorem parseStreamInfo_stored_fields_not_incremented :
    (parseStreamInfo exampleStreamInfoBody 34).bind
        (fun si => Run.done (si.numberOfChannels, si.bitsPerSample)) = Run.done (1, 15)
    ∧ (parseStreamInfo exampleStreamInfoBody 34).bind
        (fun si => Run.done (si.numberOfChannels, si.bitsPerSample)) ≠ Run.done (2, 16) := by
  decide

/-- C7, amended: for every 34-byte StreamInfo body, `numberOfChannels` is the 3-bit stored
field (bits 3..1 of `d12`) itself and `bitsPerSample` is the 5-bit stored field (bit 0 of
`d12` followed by the high 4 bits of `d13`) itself: the values "count minus one", as the
comments on the two struct members say. -/
theorem parseStreamInfo_channels_bits_stored
    (d0 d1 d2 d3 d4 d5 d6 d7 d8 d9 d10 d11 d12 d13 d14 d15 d16 d17 : Byte)
    (md5 : List Byte) (hlen : md5.length = 16) :
    ∃ si, parseStreamInfo (d0 :: d1 :: d2 :: d3 :: d4 :: d5 :: d6 :: d7 :: d8 :: d9 :: d10 ::
        d11 :: d12 :: d13 :: d14 :: d15 :: d16 :: d17 :: md5) 34 = Run.done si
      ∧ si.numberOfChannels = ((d12.val / 2 % 8 : Nat) : Int)
      ∧ si.bitsPerSample = ((d12.val % 2 * 16 + d13.val / 16 : Nat) : Int) :=
  ⟨_, parseStreamInfo_cons d0 d1 d2 d3 d4 d5 d6 d7 d8 d9 d10 d11 d12 d13 d14 d15 d16 d17
    md5 34 (by rw [hlen]; decide) (by decide), rfl, rfl⟩

/-- Witness for the amended C7: the example body has stored fields 1 and 15. -/
theorem parseStreamInfo_channels_bits_stored_witness :
    ∃ si, parseStreamInfo exampleStreamInfoBody 34 = Run.done si
      ∧ si.numberOfChannels = 1 ∧ si.bitsPerSample = 15 :=
  parseStreamInfo_channels_bits_stored
    0x10 0x00 0x10 0x00 0x00 0x00 0x0e 0x00 0x40 0x00 0x0a 0xc4 0x42 0xf0 0x00 0x0f 0x42 0x40
    [0, 0, 0, 0, 0, 0, 0, 0, 0, 0, 0, 0, 0, 0, 0, 0] rfl

/-- C8, the code at the failing inputs: the cells `10 00` decode to 4096, but `10 80`
decode to -128 (the claim: 4224) and `80 00` to -32768 (the claim: 32768). The low cell is
or-ed in without the `& 0x00ff` mask that lines 343–345 use, so a cell `>= 0x80` is
sign-extended over the high cell, and the result is held in a signed `short`. -/
theorem parseStreamInfo_minimumBlock_sign_extended :
    (parseStreamInfo (exampleBodyWithMinBlock 0x10 0x00) 34).bind
        (fun si => Run.done si.minimunBlockSize) = Run.done 4096
    ∧ (parseStreamInfo (exampleBodyWithMinBlock 0x10 0x80) 34).bind
        (fun si => Run.done si.minimunBlockSize) = Run.done (-128)
    ∧ (parseStreamInfo (exampleBodyWithMinBlock 0x80 0x00) 34).bind
        (fun si => Run.done si.minimunBlockSize) = Run.done (-32768) := by
  decide

/-! ## The driver `parse` -/

theorem cString_marker_ne (c0 c1 c2 c3 : Byte) (after : List Byte)
    (h : [c0, c1, c2, c3] ≠ fLaC) : cString ([c0, c1, c2, c3] ++ after) ≠ fLaC := by
  intro hc
  unfold cString at hc
  by_cases h0 : c0 = 0
  · subst h0; simp [List.takeWhile, fLaC] at hc
  by_cases h1 : c1 = 0
  · subst h1; simp [List.takeWhile, h0, fLaC] at hc
  by_cases h2 : c2 = 0
  · subst h2; simp [List.takeWhile, h0, h1, fLaC] at hc
  by_cases h3 : c3 = 0
  · subst h3; simp [List.takeWhile, h0, h1, h2, fLaC] at hc
  · simp [List.takeWhile, h0, h1, h2, h3, fLaC] at hc
    exact h (by simp [hc, fLaC])

theorem cString_marker (after : List Byte) : cString (fLaC ++ after) = fLaC ++ cString after := by
  simp [cString, fLaC, List.takeWhile]

theorem cString_marker_after (after : List Byte) (h : cString after ≠ []) :
    cString (fLaC ++ after) ≠ fLaC := by
  rw [cString_marker]
  intro hc
  exact h (by simpa using hc)

theorem parse_cons (after : List Byte) (tails : Nat → ArrayTails) (c0 c1 c2 c3 : Byte)
    (rest : List Byte) (info : FlacInfo) :
    parse after tails (c0 :: c1 :: c2 :: c3 :: rest) info =
      if cString ([c0, c1, c2, c3] ++ after) ≠ fLaC then Run.done ⟨NOT_FLAC_FAILED, info, 0, []⟩
      else parseLoop tails (rest.length + 4 + 1) rest info 4 [] := by
  unfold parse
  simp [FLAC_LENGHT, loadRange, load_cons_zero, load_cons_succ, toChar_promote]

/-- C3: for every buffer of at least 4 bytes whose first 4 bytes are not exactly
`f`,`L`,`a`,`C`, whatever follows them (and whatever lies behind the local array the four
bytes are copied to), `parse` returns `NOT_FLAC_FAILED`, leaves the aggregate as it was,
and calls `parse2` zero times. -/
theorem parse_not_flac (after : List Byte) (tails : Nat → ArrayTails) (c0 c1 c2 c3 : Byte)
    (rest : List Byte) (info : FlacInfo) (h : [c0, c1, c2, c3] ≠ fLaC) :
    parse after tails (c0 :: c1 :: c2 :: c3 :: rest) info =
      Run.done ⟨NOT_FLAC_FAILED, info, 0, []⟩ := by
  rw [parse_cons, if_pos (cString_marker_ne c0 c1 c2 c3 after h)]

/-- Witness for C3: a buffer starting `fLaX` and continuing with a well-formed final
StreamInfo block. -/
theorem parse_not_flac_witness :
    [(102 : Byte), 76, 97, 88] ≠ fLaC
    ∧ parse [] (fun _ => ArrayTails.nul)
        (102 :: 76 :: 97 :: 88 :: (0x80 :: 0x00 :: 0x00 :: 0x22 :: exampleStreamInfoBody)) {}
        = Run.done ⟨NOT_FLAC_FAILED, {}, 0, []⟩ :=
  ⟨by decide, parse_not_flac [] _ 102 76 97 88 _ {} (by decide)⟩

/-- With a cell other than NUL behind the array `fLaC[4]`, the marker test of `parse`
fails on every buffer of at least 4 cells: `parse2` is not called. -/
theorem parse_unterminated_marker (after : List Byte) (tails : Nat → ArrayTails)
    (c0 c1 c2 c3 : Byte) (rest : List Byte) (info : FlacInfo) (h : cString after ≠ []) :
    parse after tails (c0 :: c1 :: c2 :: c3 :: rest) info =
      Run.done ⟨NOT_FLAC_FAILED, info, 0, []⟩ := by
  rw [parse_cons]
  by_cases hm : [c0, c1, c2, c3] = fLaC
  · rw [if_pos (by rw [hm]; exact cString_marker_after after h)]
  · rw [if_pos (cString_marker_ne c0 c1 c2 c3 after hm)]

theorem toChar_val (x : Nat) : (toChar x).val = x % 256 := rfl

theorem parse2_block (tails : ArrayTails) (b : Block) (hs : b.body.length < 16777216)
    (fin : Bool) (rest : List Byte) (info : FlacInfo) :
    parse2 tails (b.cells fin ++ rest) info =
      (dispatch tails ⟨fin, (b.blockType.val : Int), (b.body.length : Int)⟩ b.body info).bind
        fun info1 => Run.done ⟨4 + (b.body.length : Int), info1, fin⟩ := by
  have ht := b.blockType.isLt
  have hA : decide (128 ≤ (toChar ((if fin then 128 else 0) + b.blockType.val)).val) = fin := by
    rw [toChar_val]
    cases fin
    · simp; omega
    · simp; omega
  have hB : (toChar ((if fin then 128 else 0) + b.blockType.val)).val % 128
      = b.blockType.val := by
    rw [toChar_val]
    cases fin
    · simp; omega
    · simp; omega
  have hN : (toChar (b.body.length / 65536)).val * 65536 + (toChar (b.body.length / 256)).val * 256
      + (toChar b.body.length).val = b.body.length := by
    simp only [toChar_val]
    omega
  unfold Block.cells headerCells
  simp only [List.cons_append, List.nil_append, List.append_assoc]
  rw [parse2_cons _ _ _ _ _ _ _ (by rw [hN, List.length_append]; omega), hA, hB, hN,
    List.take_left]

theorem Run.isDone_bind_congr {α β γ : Type} (x : Run α) (f : α → Run β) (g : α → Run γ)
    (h : ∀ a, (f a).isDone = (g a).isDone) : (x.bind f).isDone = (x.bind g).isDone := by
  cases x with
  | done a => exact h a
  | outOfBounds => rfl
  | outOfFuel => rfl

theorem parsePicture_isDone (tails tails1 : ArrayTails) (data : List Byte) (size : Int) :
    (parsePicture tails data size).isDone = (parsePicture tails1 data size).isDone := by
  unfold parsePicture
  refine Run.isDone_bind_congr _ _ _ fun _ => ?_
  refine Run.isDone_bind_congr _ _ _ fun _ => ?_
  refine Run.isDone_bind_congr _ _ _ fun _ => ?_
  refine Run.isDone_bind_congr _ _ _ fun _ => ?_
  refine Run.isDone_bind_congr _ _ _ fun _ => ?_
  refine Run.isDone_bind_congr _ _ _ fun _ => ?_
  refine Run.isDone_bind_congr _ _ _ fun _ => ?_
  refine Run.isDone_bind_congr _ _ _ fun _ => ?_
  refine Run.isDone_bind_congr _ _ _ fun _ => ?_
  refine Run.isDone_bind_congr _ _ _ fun _ => ?_
  refine Run.isDone_bind_congr _ _ _ fun _ => ?_
  rfl

theorem parsePadding_isDone (tail tail1 : List Byte) (data : List Byte) (size : Int) :
    (parsePadding tail data size).isDone = (parsePadding tail1 data size).isDone := by
  unfold parsePadding
  cases loadRange data 0 size.toNat <;> rfl

theorem Run.isDone_bind_done {α β : Type} (x : Run α) (f : α → β) :
    (x.bind fun a => Run.done (f a)).isDone = x.isDone := by
  cases x <;> rfl

theorem dispatch_isDone_congr (tails tails1 : ArrayTails) (h h1 : Header) (realData : List Byte)
    (info info1 : FlacInfo) (ht : h.blockType = h1.blockType) (hs : h.blockSize = h1.blockSize) :
    (dispatch tails h realData info).isDone = (dispatch tails1 h1 realData info1).isDone := by
  unfold dispatch
  rw [ht, hs]
  split_ifs
  · cases parseStreamInfo realData h1.blockSize <;> rfl
  · rw [Run.isDone_bind_done, Run.isDone_bind_done]
    exact parsePicture_isDone tails tails1 realData h1.blockSize
  · cases parseSeekTable realData h1.blockSize <;> rfl
  · cases parseVorbisComment realData h1.blockSize <;> rfl
  · rw [Run.isDone_bind_done, Run.isDone_bind_done]
    exact parsePadding_isDone _ _ realData h1.blockSize
  · rfl

theorem Run.isDone_iff {α : Type} (x : Run α) : x.isDone = true ↔ ∃ a, x = Run.done a := by
  cases x <;> simp [Run.isDone]

theorem parse2_block_done (tails : ArrayTails) (b : Block) (hs : b.body.length < 16777216)
    (hd : b.decodes = true) (fin : Bool) (rest : List Byte) (info : FlacInfo) :
    ∃ info1, parse2 tails (b.cells fin ++ rest) info
      = Run.done ⟨4 + (b.body.length : Int), info1, fin⟩ := by
  unfold Block.decodes at hd
  rw [dispatch_isDone_congr ArrayTails.nul tails
    ⟨false, (b.blockType.val : Int), (b.body.length : Int)⟩
    ⟨fin, (b.blockType.val : Int), (b.body.length : Int)⟩ b.body {} info rfl rfl,
    Run.isDone_iff] at hd
  obtain ⟨info1, h1⟩ := hd
  exact ⟨info1, by rw [parse2_block tails b hs, h1]; rfl⟩

theorem callOffsets_length (blocks : List Block) :
    ∀ off, (callOffsets off blocks).length = blocks.length := by
  induction blocks with
  | nil => intro off; rfl
  | cons b bs ih => intro off; simp [callOffsets, ih]

theorem callOffsets_getElem? (blocks : List Block) :
    ∀ (off : Int) (i : Nat), i < blocks.length →
      (callOffsets off blocks)[i]? = some (off + totalCells (blocks.take i)) := by
  induction blocks with
  | nil => intro off i hi; simp at hi
  | cons b bs ih =>
    intro off i hi
    cases i with
    | zero => simp [callOffsets, totalCells]
    | succ i =>
      simp only [callOffsets, List.getElem?_cons_succ, List.take_succ_cons]
      rw [ih _ i (by simpa using hi)]
      simp only [totalCells, List.map_cons, List.sum_cons]
      congr 1
      omega

theorem stream_length_ge (blocks : List Block) : blocks.length ≤ (stream blocks).length := by
  induction blocks with
  | nil => simp [stream]
  | cons b bs ih =>
    cases bs with
    | nil => simp [stream, Block.cells, headerCells]
    | cons b1 bs =>
      simp only [stream, List.length_append, List.length_cons] at ih ⊢
      simp only [Block.cells, headerCells, List.length_append, List.length_cons, List.length_nil]
      omega

theorem parseLoop_stream (tails : Nat → ArrayTails) (blocks : List Block) :
    blocks ≠ [] → (∀ b ∈ blocks, b.body.length < 16777216) → (∀ b ∈ blocks, b.decodes = true) →
    ∀ (fuel : Nat) (rest : List Byte) (info : FlacInfo) (off : Int) (calls : List Int),
      blocks.length ≤ fuel →
      ∃ info1, parseLoop tails fuel (stream blocks ++ rest) info off calls
        = Run.done ⟨PARSE_OK, info1, off + totalCells blocks, calls ++ callOffsets off blocks⟩ := by
  induction blocks with
  | nil => intro h; exact absurd rfl h
  | cons b bs ih =>
    intro _ hsize hdec fuel rest info off calls hfuel
    have hb := hsize b (List.mem_cons_self _ _)
    have hdb := hdec b (List.mem_cons_self _ _)
    cases fuel with
    | zero => simp at hfuel
    | succ fuel =>
      cases bs with
      | nil =>
        obtain ⟨info1, h1⟩ := parse2_block_done (tails calls.length) b hb hdb true rest info
        refine ⟨info1, ?_⟩
        simp only [stream, parseLoop, h1, Run.done_bind, PARSE_FAILED, PARSE_OK, callOffsets,
          totalCells, List.map_cons, List.map_nil, List.sum_cons, List.sum_nil]
        rw [if_neg (by omega)]
        simp
      | cons b1 bs =>
        obtain ⟨info1, h1⟩ := parse2_block_done (tails calls.length) b hb hdb false
          (stream (b1 :: bs) ++ rest) info
        obtain ⟨info2, h2⟩ := ih (by simp) (fun x hx => hsize x (List.mem_cons_of_mem _ hx))
          (fun x hx => hdec x (List.mem_cons_of_mem _ hx)) fuel rest info1
          (off + (4 + (b.body.length : Int))) (calls ++ [off])
          (by simp only [List.length_cons] at hfuel ⊢; omega)
        refine ⟨info2, ?_⟩
        have hdrop : List.drop (4 + (b.body.length : Int)).toNat
            (b.cells false ++ (stream (b1 :: bs) ++ rest)) = stream (b1 :: bs) ++ rest := by
          have : (4 + (b.body.length : Int)).toNat = (b.cells false).length := by
            simp only [Block.cells, headerCells, List.length_append, List.length_cons,
              List.length_nil]
            omega
          rw [this, List.drop_left]
        simp only [stream, List.append_assoc, parseLoop, h1, Run.done_bind, PARSE_FAILED]
        rw [if_neg (by omega)]
        simp only [Bool.not_false, if_true, hdrop, h2]
        simp only [totalCells, List.map_cons, List.sum_cons, callOffsets, List.append_assoc,
          List.singleton_append]
        congr 2
        omega

theorem parseStreamInfo_total (data : List Byte) (size : Int) (h18 : 18 ≤ data.length)
    (hs : size.toNat ≤ data.length) (h34 : size ≤ 34) :
    ∃ si, parseStreamInfo data size = Run.done si := by
  unfold parseStreamInfo
  rw [load_eq_done (show 0 < data.length by omega), load_eq_done (show 1 < data.length by omega),
    load_eq_done (show 2 < data.length by omega), load_eq_done (show 3 < data.length by omega),
    load_eq_done (show 4 < data.length by omega), load_eq_done (show 5 < data.length by omega),
    load_eq_done (show 6 < data.length by omega), load_eq_done (show 7 < data.length by omega),
    load_eq_done (show 8 < data.length by omega), load_eq_done (show 9 < data.length by omega),
    load_eq_done (show 10 < data.length by omega), load_eq_done (show 11 < data.length by omega),
    load_eq_done (show 12 < data.length by omega), load_eq_done (show 13 < data.length by omega),
    load_eq_done (show 14 < data.length by omega), load_eq_done (show 15 < data.length by omega),
    load_eq_done (show 16 < data.length by omega), load_eq_done (show 17 < data.length by omega),
    storeCells_eq_done data 18 (size - 18).toNat (by omega) (by omega)]
  exact ⟨_, rfl⟩

theorem dispatch_streamInfo (tails : ArrayTails) (fin : Bool) (size : Int) (realData : List Byte)
    (info : FlacInfo) (si : StreamInfo) (h : parseStreamInfo realData size = Run.done si) :
    dispatch tails ⟨fin, 0, size⟩ realData info = Run.done
      { info with streamInfo := some { si with blockSize := size, blockType := 0, isFinal := fin } } := by
  unfold dispatch
  simp only [META_TYPE_STREAM_INFO, if_true, h, Run.done_bind]

theorem stream_length (blocks : List Block) :
    ((stream blocks).length : Int) = totalCells blocks := by
  induction blocks with
  | nil => simp [stream, totalCells]
  | cons b bs ih =>
    cases bs with
    | nil =>
      simp only [stream, Block.cells, headerCells, List.length_append, List.length_cons,
        List.length_nil, totalCells, List.map_cons, List.map_nil, List.sum_cons, List.sum_nil]
      omega
    | cons b1 bs =>
      have e : totalCells (b :: b1 :: bs) = 4 + (b.body.length : Int) + totalCells (b1 :: bs) := by
        simp only [totalCells, List.map_cons, List.sum_cons]
      rw [e, ← ih]
      simp only [stream, Block.cells, headerCells, List.length_append, List.length_cons,
        List.length_nil]
      omega

/-- With a NUL right behind the array `fLaC[4]`: on a buffer made of `fLaC`, the header
`80 00 00 22`, any 34 body cells and any trailing cells, `parse` on a fresh aggregate
returns `PARSE_OK` with only the `streamInfo` slot set, after one call of `parse2` at
offset 4, and stops at offset 42. -/
theorem parse_terminated_single_streamInfo (tails : Nat → ArrayTails) (body trailing : List Byte)
    (hlen : body.length = 34) :
    ∃ si, parse [] tails (fLaC ++ (0x80 :: 0x00 :: 0x00 :: 0x22 :: body) ++ trailing) {} =
        Run.done ⟨PARSE_OK, { streamInfo := some si }, 42, [4]⟩
      ∧ si.toMetaBlock = ⟨true, 0, 34⟩ := by
  obtain ⟨si, hsi⟩ := parseStreamInfo_total body 34 (by omega) (by rw [hlen]; decide) (by decide)
  have hcells : (0x80 :: 0x00 :: 0x00 :: 0x22 :: body : List Byte)
      = (⟨0, body⟩ : Block).cells true := by
    simp only [Block.cells, headerCells, hlen]
    rfl
  have hp2 := parse2_block (tails 0) ⟨0, body⟩ (by simp only [hlen]; decide) true trailing {}
  simp only [hlen] at hp2
  have hd := dispatch_streamInfo (tails 0) true 34 body {} si hsi
  refine ⟨{ si with blockSize := 34, blockType := 0, isFinal := true }, ?_, rfl⟩
  have hbuf : fLaC ++ (0x80 :: 0x00 :: 0x00 :: 0x22 :: body) ++ trailing
      = 102 :: 76 :: 97 :: 67 :: ((⟨0, body⟩ : Block).cells true ++ trailing) := by
    rw [← hcells]; rfl
  rw [hbuf, parse_cons, if_neg (by decide)]
  simp only [parseLoop, List.length_nil]
  rw [hp2]
  simp only [Nat.cast_ofNat, Fin.val_zero, Nat.cast_zero] at hd ⊢
  rw [hd]
  rfl

/-- With a NUL right behind the array `fLaC[4]`: on a buffer made of `fLaC`, `n ≥ 1` blocks
of which only the last has the final flag, and any trailing cells, where every body is
shorter than 2^24 and is read by its decoder without leaving the body, `parse` returns
`PARSE_OK` after `n` calls of `parse2` at the offsets of the blocks and stops where the
trailing cells start. -/
theorem parse_terminated_stream (tails : Nat → ArrayTails) (blocks : List Block)
    (trailing : List Byte) (info : FlacInfo)
    (hne : blocks ≠ []) (hsize : ∀ b ∈ blocks, b.body.length < 16777216)
    (hdec : ∀ b ∈ blocks, b.decodes = true) :
    ∃ out, parse [] tails (fLaC ++ stream blocks ++ trailing) info = Run.done out
      ∧ out.code = PARSE_OK
      ∧ out.calls.length = blocks.length
      ∧ (∀ i, i < blocks.length → out.calls[i]? = some (4 + totalCells (blocks.take i)))
      ∧ out.offsetAddress = 4 + totalCells blocks
      ∧ (fLaC ++ stream blocks ++ trailing).drop out.offsetAddress.toNat = trailing := by
  have hbuf : fLaC ++ stream blocks ++ trailing
      = 102 :: 76 :: 97 :: 67 :: (stream blocks ++ trailing) := rfl
  have hfuel : blocks.length ≤ (stream blocks ++ trailing).length + 4 + 1 := by
    have := stream_length_ge blocks
    rw [List.length_append]
    omega
  obtain ⟨info1, h1⟩ := parseLoop_stream tails blocks hne hsize hdec _ trailing info 4 [] hfuel
  refine ⟨_, by rw [hbuf, parse_cons, if_neg (by decide), h1], rfl, ?_, ?_, rfl, ?_⟩
  · simp [callOffsets_length]
  · intro i hi
    simpa using callOffsets_getElem? blocks 4 i hi
  · have hl := stream_length blocks
    have : (4 + totalCells blocks).toNat = (fLaC ++ stream blocks).length := by
      rw [List.length_append, ← hl]
      simp only [fLaC, List.length_cons, List.length_nil]
      omega
    show List.drop (4 + totalCells blocks).toNat _ = _
    rw [this, List.drop_left]

/-- C4, the code at the failing input: the marker test of line 246 builds a string from
the array `char fLaC[4]`, which has no terminator. On the buffer `fLaC`, `80 00 00 22`,
the example StreamInfo body, two trailing cells, with a cell `01` behind the array, the
string is not `"fLaC"`: `parse` returns `NOT_FLAC_FAILED`, the aggregate stays empty and
`parse2` is never called (the claim: `PARSE_OK`, StreamInfo set, one call). The same holds
for every 34-cell body, every trailing cells and every cell other than NUL behind the
array; only with a NUL right behind the array does `parse` do what the claim says. -/
theorem parse_single_streamInfo_not_flac :
    parse [1] (fun _ => ArrayTails.nul)
        (fLaC ++ (0x80 :: 0x00 :: 0x00 :: 0x22 :: exampleStreamInfoBody) ++ [0xff, 0xf8]) {}
      = Run.done ⟨NOT_FLAC_FAILED, {}, 0, []⟩
    ∧ (∀ (after : List Byte) (tails : Nat → ArrayTails) (body trailing : List Byte),
        cString after ≠ [] →
        parse after tails (fLaC ++ (0x80 :: 0x00 :: 0x00 :: 0x22 :: body) ++ trailing) {}
          = Run.done ⟨NOT_FLAC_FAILED, {}, 0, []⟩)
    ∧ (∀ (tails : Nat → ArrayTails) (body trailing : List Byte), body.length = 34 →
        ∃ si, parse [] tails (fLaC ++ (0x80 :: 0x00 :: 0x00 :: 0x22 :: body) ++ trailing) {}
            = Run.done ⟨PARSE_OK, { streamInfo := some si }, 42, [4]⟩
          ∧ si.toMetaBlock = ⟨true, 0, 34⟩) := by
  refine ⟨by decide, ?_, ?_⟩
  · intro after tails body trailing h
    exact parse_unterminated_marker after tails 102 76 97 67 _ {} h
  · intro tails body trailing hlen
    exact parse_terminated_single_streamInfo tails body trailing hlen

/-- C5, the code at the failing input: on the buffer `fLaC`, the four example blocks
(StreamInfo, Application, Padding, an unassigned type; the last one final), two trailing
cells, with a cell `01` behind the unterminated array `fLaC[4]` of line 241, the marker
test of line 246 fails: `parse` returns `NOT_FLAC_FAILED` with the cursor at 0 and without
a single call of `parse2` (the claim: success after 4 calls, at offsets 4, 42, 51, 58,
ending at 63). The same holds for every sequence of blocks and every cell other than NUL
behind the array. -/
theorem parse_stream_not_flac :
    parse [1] (fun _ => ArrayTails.nul) (fLaC ++ stream exampleBlocks ++ [0xff, 0xf8]) {}
      = Run.done ⟨NOT_FLAC_FAILED, {}, 0, []⟩
    ∧ (∀ (after : List Byte) (tails : Nat → ArrayTails) (blocks : List Block)
        (trailing : List Byte) (info : FlacInfo), cString after ≠ [] →
        parse after tails (fLaC ++ stream blocks ++ trailing) info
          = Run.done ⟨NOT_FLAC_FAILED, info, 0, []⟩) := by
  refine ⟨by decide, ?_⟩
  intro after tails blocks trailing info h
  exact parse_unterminated_marker after tails 102 76 97 67 _ info h
/-! ## The VorbisComment decoder -/

theorem mapFind_pushBack (m : DataMap) (k v K : List Byte) :
    mapFind (mapPushBack m k v) K =
      if k = K then (mapFind m K).map (fun vs => vs ++ [v]) else mapFind m K := by
  induction m with
  | nil => simp [mapPushBack, mapFind]
  | cons e rest ih =>
    obtain ⟨k1, vs⟩ := e
    by_cases h1 : k1 = k
    · subst h1
      by_cases h2 : k1 = K
      · simp [mapPushBack, mapFind, h2]
      · simp [mapPushBack, mapFind, h2]
    · by_cases h2 : k1 = K
      · subst h2
        simp [mapPushBack, mapFind, h1, Ne.symm h1]
      · simp only [mapPushBack, mapFind, h1, h2, if_false, ih]

theorem mapFind_insert (m : DataMap) (k K : List Byte) (vs : List (List Byte)) :
    mapFind (mapInsert m k vs) K =
      match mapFind m K with
      | some ws => some ws
      | none => if k = K then some vs else none := by
  unfold mapInsert
  induction m with
  | nil => simp [mapFind]
  | cons e rest ih =>
    obtain ⟨k1, ws⟩ := e
    by_cases h1 : k1 = K
    · simp [mapFind, h1]
    · simp only [List.cons_append, mapFind, h1, if_false]
      exact ih

theorem mapFind_mapAdd (m : DataMap) (k v K : List Byte) :
    mapFind (mapAdd m k v) K =
      if k = K then some ((mapFind m K).getD [] ++ [v]) else mapFind m K := by
  unfold mapAdd
  cases hk : mapFind m k with
  | none =>
    simp only [mapFind_insert]
    by_cases h : k = K
    · subst h; simp [hk]
    · cases hK : mapFind m K <;> simp [h]
  | some ws =>
    simp only [mapFind_pushBack]
    by_cases h : k = K
    · subst h; simp [hk]
    · simp [h]

theorem mapFind_foldl (entries : List CommentAcc) (K : List Byte) :
    ∀ m : DataMap, mapFind (entries.foldl (fun m e => mapAdd m e.key e.value) m) K =
      if valuesOf K entries = [] then mapFind m K
      else some ((mapFind m K).getD [] ++ valuesOf K entries) := by
  induction entries with
  | nil => intro m; simp [valuesOf]
  | cons e rest ih =>
    intro m
    rw [List.foldl_cons, ih, mapFind_mapAdd]
    by_cases h : e.key = K
    · have hv : valuesOf K (e :: rest) = e.value :: valuesOf K rest := by
        simp [valuesOf, List.filter_cons, h]
      rw [hv, if_pos h]
      by_cases hr : valuesOf K rest = []
      · simp [hr]
      · simp [hr]
    · have hv : valuesOf K (e :: rest) = valuesOf K rest := by
        simp [valuesOf, List.filter_cons, h]
      rw [hv, if_neg h]

theorem vorbisLoop_eq_fold (data : List Byte) (size : Int) :
    ∀ (fuel use : Nat) (m : DataMap), vorbisLoop data size fuel use m =
      (commentsLoop data size fuel use).bind fun entries =>
        Run.done (entries.foldl (fun m e => mapAdd m e.key e.value) m) := by
  intro fuel
  induction fuel with
  | zero => intro use m; rfl
  | succ fuel ih =>
    intro use m
    unfold vorbisLoop commentsLoop
    by_cases hlt : (use : Int) < size
    · rw [if_pos hlt, if_pos hlt]
      cases hr : readComment data use with
      | done r =>
        simp only [Run.done_bind]
        rw [ih]
        cases commentsLoop data size fuel r.2 <;> rfl
      | outOfBounds => rfl
      | outOfFuel => rfl
    · rw [if_neg hlt, if_neg hlt]
      rfl

/-- C9: for every VorbisComment body on which `parseVorbisComment` returns, if the comment
entries the decoder reads are, in order, `entries`, then every key `K` that occurs among
them is mapped to the values of exactly the entries whose key is `K`, in file order (a
later entry with a key already seen is appended), and a key that does not occur is not in
the map. -/
theorem parseVorbisComment_merges (data : List Byte) (size : Int) (vc : VorbisComment)
    (h : parseVorbisComment data size = Run.done vc) :
    ∃ entries, commentsRead data size = Run.done entries
      ∧ ∀ K, mapFind vc.dataMap K =
          if valuesOf K entries = [] then none else some (valuesOf K entries) := by
  unfold parseVorbisComment at h
  obtain ⟨m, hm, e⟩ := Run.bind_eq_done h
  cases e
  rw [vorbisLoop_eq_fold] at hm
  obtain ⟨entries, he, e⟩ := Run.bind_eq_done hm
  cases e
  refine ⟨entries, he, fun K => ?_⟩
  show mapFind (entries.foldl (fun m e => mapAdd m e.key e.value) []) K = _
  rw [mapFind_foldl]
  simp [mapFind]

/-- Witness for C9: the comments `ARTIST=A` then `ARTIST=B` give `ARTIST -> [A, B]`. -/
theorem parseVorbisComment_merges_witness :
    ∃ vc, parseVorbisComment exampleArtistBody 64 = Run.done vc
      ∧ (∃ entries, commentsRead exampleArtistBody 64 = Run.done entries
        ∧ ∀ K, mapFind vc.dataMap K =
            if valuesOf K entries = [] then none else some (valuesOf K entries))
      ∧ mapFind vc.dataMap (ascii "ARTIST") = some [ascii "A", ascii "B"] :=
  ⟨_, rfl, parseVorbisComment_merges exampleArtistBody 64 _ rfl, by decide⟩

/-- C10, the code at the failing input: the comment `URL=a=b` is split into the key `URL`
and the value `ab`. Line 454 tests every cell against `=` before line 460 looks at `flag`,
so every `=` of the entry is dropped, not only the first. -/
theorem parseVorbisComment_drops_later_separators :
    splitComment (ascii "URL=a=b") = ⟨ascii "URL", ascii "ab", true⟩
    ∧ (parseVorbisComment exampleUrlBody 51).bind (fun vc => Run.done vc.dataMap)
        = Run.done [(ascii "URL", [ascii "ab"])]
    ∧ (parseVorbisComment exampleUrlBody 51).bind (fun vc => Run.done vc.dataMap)
        ≠ Run.done [(ascii "URL", [ascii "a=b"])] := by
  decide

/-! ## The fuel of the loops is enough

No run of the embedding ends in `Run.outOfFuel`: every round of a loop moves its cursor
forward inside the buffer, and the fuel handed to the loop exceeds the buffer's length. -/

theorem Run.bind_ne_outOfFuel {α β : Type} {x : Run α} {f : α → Run β}
    (hx : x ≠ Run.outOfFuel) (hf : ∀ a, x = Run.done a → f a ≠ Run.outOfFuel) :
    x.bind f ≠ Run.outOfFuel := by
  cases x with
  | done a => exact hf a rfl
  | outOfBounds => intro h; cases h
  | outOfFuel => exact absurd rfl hx

theorem load_ne_outOfFuel (data : List Byte) (i : Nat) : load data i ≠ Run.outOfFuel := by
  unfold load
  cases data[i]? <;> intro h <;> cases h

theorem load_done_lt {data : List Byte} {i c : Nat} (h : load data i = Run.done c) :
    i < data.length := by
  by_contra hn
  rw [load_eq_outOfBounds (by omega)] at h
  cases h

theorem loadRange_ne_outOfFuel (data : List Byte) :
    ∀ (n start : Nat), loadRange data start n ≠ Run.outOfFuel := by
  intro n
  induction n with
  | zero => intro start h; cases h
  | succ n ih =>
    intro start
    unfold loadRange
    refine Run.bind_ne_outOfFuel (load_ne_outOfFuel _ _) fun c _ => ?_
    refine Run.bind_ne_outOfFuel (ih _) fun cs _ => ?_
    intro h; cases h

theorem loadRange_done_le {data : List Byte} {start n : Nat} {cs : List Nat}
    (h : loadRange data start n = Run.done cs) : n = 0 ∨ start + n ≤ data.length := by
  by_contra hn
  rw [loadRange_eq_outOfBounds data n start (by omega) (by omega)] at h
  cases h

theorem readChars_ne_outOfFuel (data : List Byte) (start : Nat) (n : Int) :
    readChars data start n ≠ Run.outOfFuel := by
  unfold readChars
  refine Run.bind_ne_outOfFuel (loadRange_ne_outOfFuel _ _ _) fun cs _ => ?_
  intro h; cases h

theorem be32_ne_outOfFuel (data : List Byte) (i : Nat) : be32 data i ≠ Run.outOfFuel := by
  unfold be32
  refine Run.bind_ne_outOfFuel (load_ne_outOfFuel _ _) fun _ _ => ?_
  refine Run.bind_ne_outOfFuel (load_ne_outOfFuel _ _) fun _ _ => ?_
  refine Run.bind_ne_outOfFuel (load_ne_outOfFuel _ _) fun _ _ => ?_
  refine Run.bind_ne_outOfFuel (load_ne_outOfFuel _ _) fun _ _ => ?_
  intro h; cases h

theorem storeCells_ne_outOfFuel (data : List Byte) (start n : Nat) :
    storeCells data start n ≠ Run.outOfFuel := by
  unfold storeCells
  refine Run.bind_ne_outOfFuel (loadRange_ne_outOfFuel _ _ _) fun _ _ => ?_
  split_ifs <;> (intro h; cases h)

theorem storeCells_done_le {data : List Byte} {start n : Nat} {u : Unit}
    (h : storeCells data start n = Run.done u) :
    (n = 0 ∨ start + n ≤ data.length) ∧ n ≤ 16 := by
  unfold storeCells at h
  obtain ⟨cs, hcs, h⟩ := Run.bind_eq_done h
  refine ⟨loadRange_done_le hcs, ?_⟩
  by_contra hn
  rw [if_neg hn] at h
  cases h

theorem parseStreamInfo_ne_outOfFuel (data : List Byte) (size : Int) :
    parseStreamInfo data size ≠ Run.outOfFuel := by
  unfold parseStreamInfo
  repeat (refine Run.bind_ne_outOfFuel (load_ne_outOfFuel _ _) fun _ _ => ?_)
  refine Run.bind_ne_outOfFuel (storeCells_ne_outOfFuel _ _ _) fun _ _ => ?_
  intro h; cases h

theorem parsePicture_ne_outOfFuel (tails : ArrayTails) (data : List Byte) (size : Int) :
    parsePicture tails data size ≠ Run.outOfFuel := by
  unfold parsePicture
  refine Run.bind_ne_outOfFuel (be32_ne_outOfFuel _ _) fun _ _ => ?_
  refine Run.bind_ne_outOfFuel (be32_ne_outOfFuel _ _) fun _ _ => ?_
  refine Run.bind_ne_outOfFuel (readChars_ne_outOfFuel _ _ _) fun _ _ => ?_
  refine Run.bind_ne_outOfFuel (be32_ne_outOfFuel _ _) fun _ _ => ?_
  refine Run.bind_ne_outOfFuel (readChars_ne_outOfFuel _ _ _) fun _ _ => ?_
  refine Run.bind_ne_outOfFuel (be32_ne_outOfFuel _ _) fun _ _ => ?_
  refine Run.bind_ne_outOfFuel (be32_ne_outOfFuel _ _) fun _ _ => ?_
  refine Run.bind_ne_outOfFuel (be32_ne_outOfFuel _ _) fun _ _ => ?_
  refine Run.bind_ne_outOfFuel (be32_ne_outOfFuel _ _) fun _ _ => ?_
  refine Run.bind_ne_outOfFuel (be32_ne_outOfFuel _ _) fun _ _ => ?_
  refine Run.bind_ne_outOfFuel (readChars_ne_outOfFuel _ _ _) fun _ _ => ?_
  intro h; cases h

theorem parsePadding_ne_outOfFuel (tail data : List Byte) (size : Int) :
    parsePadding tail data size ≠ Run.outOfFuel := by
  unfold parsePadding
  refine Run.bind_ne_outOfFuel (loadRange_ne_outOfFuel _ _ _) fun _ _ => ?_
  intro h; cases h

theorem seekTableLoop_ne_outOfFuel (data : List Byte) (size : Int) :
    ∀ (fuel use : Nat) (points : List SeekPoint), 0 < fuel → data.length < fuel + use →
      seekTableLoop data size fuel use points ≠ Run.outOfFuel := by
  intro fuel
  induction fuel with
  | zero => intro use points h0; omega
  | succ fuel ih =>
    intro use points _ hlen
    unfold seekTableLoop
    split_ifs with hlt
    · refine Run.bind_ne_outOfFuel (storeCells_ne_outOfFuel _ _ _) fun _ _ => ?_
      refine Run.bind_ne_outOfFuel (storeCells_ne_outOfFuel _ _ _) fun _ _ => ?_
      refine Run.bind_ne_outOfFuel (load_ne_outOfFuel _ _) fun _ _ => ?_
      refine Run.bind_ne_outOfFuel (load_ne_outOfFuel _ _) fun t1 h1 => ?_
      have := load_done_lt h1
      exact ih _ _ (by omega) (by omega)
    · intro h; cases h

theorem parseSeekTable_ne_outOfFuel (data : List Byte) (size : Int) :
    parseSeekTable data size ≠ Run.outOfFuel := by
  unfold parseSeekTable
  refine Run.bind_ne_outOfFuel
    (seekTableLoop_ne_outOfFuel data size _ _ _ (by omega) (by omega)) fun _ _ => ?_
  intro h; cases h

theorem readComment_ne_outOfFuel (data : List Byte) (use : Nat) :
    readComment data use ≠ Run.outOfFuel := by
  unfold readComment
  repeat (refine Run.bind_ne_outOfFuel (load_ne_outOfFuel _ _) fun _ _ => ?_)
  refine Run.bind_ne_outOfFuel (readChars_ne_outOfFuel _ _ _) fun _ _ => ?_
  intro h; cases h

theorem readComment_done_bounds {data : List Byte} {use : Nat} {r : CommentAcc × Nat}
    (h : readComment data use = Run.done r) : use + 4 ≤ r.2 ∧ r.2 ≤ data.length := by
  unfold readComment at h
  obtain ⟨b0, -, h⟩ := Run.bind_eq_done h
  obtain ⟨b1, -, h⟩ := Run.bind_eq_done h
  obtain ⟨b2, -, h⟩ := Run.bind_eq_done h
  obtain ⟨b3, h3, h⟩ := Run.bind_eq_done h
  obtain ⟨cells, hc, h⟩ := Run.bind_eq_done h
  have hlt := load_done_lt h3
  unfold readChars at hc
  obtain ⟨cs, hcs, -⟩ := Run.bind_eq_done hc
  have hle := loadRange_done_le hcs
  cases h
  constructor
  · show use + 4 ≤ use + 3 + _ + 1
    omega
  · show use + 3 + _ + 1 ≤ data.length
    omega

theorem vorbisLoop_ne_outOfFuel (data : List Byte) (size : Int) :
    ∀ (fuel use : Nat) (m : DataMap), 0 < fuel → data.length < fuel + use →
      vorbisLoop data size fuel use m ≠ Run.outOfFuel := by
  intro fuel
  induction fuel with
  | zero => intro use m h0; omega
  | succ fuel ih =>
    intro use m _ hlen
    unfold vorbisLoop
    split_ifs with hlt
    · refine Run.bind_ne_outOfFuel (readComment_ne_outOfFuel _ _) fun r hr => ?_
      have := readComment_done_bounds hr
      exact ih _ _ (by omega) (by omega)
    · intro h; cases h

theorem parseVorbisComment_ne_outOfFuel (data : List Byte) (size : Int) :
    parseVorbisComment data size ≠ Run.outOfFuel := by
  unfold parseVorbisComment
  refine Run.bind_ne_outOfFuel
    (vorbisLoop_ne_outOfFuel data size _ _ _ (by omega) (by omega)) fun _ _ => ?_
  intro h; cases h

theorem dispatch_ne_outOfFuel (tails : ArrayTails) (h : Header) (realData : List Byte)
    (info : FlacInfo) : dispatch tails h realData info ≠ Run.outOfFuel := by
  unfold dispatch
  split_ifs
  · refine Run.bind_ne_outOfFuel (parseStreamInfo_ne_outOfFuel _ _) fun _ _ => ?_
    intro h; cases h
  · refine Run.bind_ne_outOfFuel (parsePicture_ne_outOfFuel _ _ _) fun _ _ => ?_
    intro h; cases h
  · refine Run.bind_ne_outOfFuel (parseSeekTable_ne_outOfFuel _ _) fun _ _ => ?_
    intro h; cases h
  · refine Run.bind_ne_outOfFuel (parseVorbisComment_ne_outOfFuel _ _) fun _ _ => ?_
    intro h; cases h
  · refine Run.bind_ne_outOfFuel (parsePadding_ne_outOfFuel _ _ _) fun _ _ => ?_
    intro h; cases h
  · intro h; cases h

theorem readHeader_ne_outOfFuel (data : List Byte) : readHeader data ≠ Run.outOfFuel := by
  unfold readHeader
  repeat (refine Run.bind_ne_outOfFuel (load_ne_outOfFuel _ _) fun _ _ => ?_)
  intro h; cases h

theorem parse2_ne_outOfFuel (tails : ArrayTails) (data : List Byte) (info : FlacInfo) :
    parse2 tails data info ≠ Run.outOfFuel := by
  unfold parse2
  refine Run.bind_ne_outOfFuel (readHeader_ne_outOfFuel _) fun _ _ => ?_
  refine Run.bind_ne_outOfFuel ?_ fun _ _ => ?_
  · unfold copyBody
    refine Run.bind_ne_outOfFuel (loadRange_ne_outOfFuel _ _ _) fun _ _ => ?_
    intro h; cases h
  refine Run.bind_ne_outOfFuel (dispatch_ne_outOfFuel _ _ _ _) fun _ _ => ?_
  intro h; cases h

/-- A call of `parse2` that returns has read its four header cells and the body inside
the buffer, and returns their number. -/
theorem parse2_done_bounds {tails : ArrayTails} {data : List Byte} {info : FlacInfo}
    {out : Parse2Out} (h : parse2 tails data info = Run.done out) :
    4 ≤ out.result ∧ out.result.toNat ≤ data.length := by
  obtain ⟨hd, realData, hh, hc, -, hres, -⟩ := parse2_eq_done h
  have hlt : 3 < data.length := by
    unfold readHeader at hh
    obtain ⟨h0, -, hh⟩ := Run.bind_eq_done hh
    obtain ⟨h1, -, hh⟩ := Run.bind_eq_done hh
    obtain ⟨h2, -, hh⟩ := Run.bind_eq_done hh
    obtain ⟨h3, e3, -⟩ := Run.bind_eq_done hh
    exact load_done_lt e3
  match data, hlt with
  | b0 :: b1 :: b2 :: b3 :: rest, _ =>
    rw [readHeader_cons] at hh
    cases hh
    unfold copyBody at hc
    obtain ⟨cs, hcs, -⟩ := Run.bind_eq_done hc
    have hle := loadRange_done_le hcs
    simp only [Int.toNat_ofNat, List.length_cons] at hle
    rw [hres]
    simp only [List.length_cons]
    omega

theorem parseLoop_ne_outOfFuel (tails : Nat → ArrayTails) :
    ∀ (fuel : Nat) (content : List Byte) (info : FlacInfo) (off : Int) (calls : List Int),
      content.length < fuel → parseLoop tails fuel content info off calls ≠ Run.outOfFuel := by
  intro fuel
  induction fuel with
  | zero => intro content info off calls h; omega
  | succ fuel ih =>
    intro content info off calls hlen
    unfold parseLoop
    refine Run.bind_ne_outOfFuel (parse2_ne_outOfFuel _ _ _) fun r hr => ?_
    have hb := parse2_done_bounds hr
    split_ifs
    · intro h; cases h
    · refine ih _ _ _ _ ?_
      rw [List.length_drop]
      omega
    · intro h; cases h

/-- The driver never runs out of fuel: a run of `parse` either returns, or reads a cell
outside the buffer or stores one outside a string. -/
theorem parse_ne_outOfFuel (after : List Byte) (tails : Nat → ArrayTails) (content : List Byte)
    (info : FlacInfo) : parse after tails content info ≠ Run.outOfFuel := by
  unfold parse
  refine Run.bind_ne_outOfFuel (loadRange_ne_outOfFuel _ _ _) fun _ _ => ?_
  split_ifs
  · intro h; cases h
  · exact parseLoop_ne_outOfFuel _ _ _ _ _ _ (by rw [List.length_drop]; omega)

/-! ## Well-formed VorbisComment bodies -/

theorem le32_length (n : Nat) : (le32 n).length = 4 := rfl

theorem le32_decode (n : Nat) (hn : n < 4294967296) :
    (n % 256) ||| shl (n / 256 % 256) 8 ||| shl (n / 65536 % 256) 16
      ||| shl (n / 16777216 % 256) 24 = n := by
  rw [shl_of_lt (by omega : n / 256 % 256 * 2 ^ 8 < 4294967296),
    shl_of_lt (by omega : n / 65536 % 256 * 2 ^ 16 < 4294967296),
    shl_of_lt (by omega : n / 16777216 % 256 * 2 ^ 24 < 4294967296)]
  have e1 : n % 256 ||| n / 256 % 256 * 2 ^ 8 = n / 256 % 256 * 2 ^ 8 + n % 256 := by
    rw [Nat.lor_comm]
    exact lor_eq_add 8 (by omega) (by omega)
  rw [e1]
  have e2 : (n / 256 % 256 * 2 ^ 8 + n % 256) ||| n / 65536 % 256 * 2 ^ 16
      = n / 65536 % 256 * 2 ^ 16 + (n / 256 % 256 * 2 ^ 8 + n % 256) := by
    rw [Nat.lor_comm]
    exact lor_eq_add 16 (by omega) (by omega)
  rw [e2]
  have e3 : (n / 65536 % 256 * 2 ^ 16 + (n / 256 % 256 * 2 ^ 8 + n % 256))
      ||| n / 16777216 % 256 * 2 ^ 24
      = n / 16777216 % 256 * 2 ^ 24 + (n / 65536 % 256 * 2 ^ 16
        + (n / 256 % 256 * 2 ^ 8 + n % 256)) := by
    rw [Nat.lor_comm]
    exact lor_eq_add 24 (by omega) (by omega)
  rw [e3]
  omega

theorem load_append_right (pre post : List Byte) (i : Nat) :
    load (pre ++ post) (pre.length + i) = load post i := by
  unfold load
  rw [List.getElem?_append_right (by omega)]
  simp

/-- One round of the comment loop on a comment `c` that lies at `pre.length`, behind its
32-bit little-endian length. -/
theorem readComment_at (pre c post : List Byte) (hc : c.length < 2147483648) :
    readComment (pre ++ (le32 c.length ++ c ++ post)) pre.length
      = Run.done (splitComment c, pre.length + 4 + c.length) := by
  have h0 : load (pre ++ (le32 c.length ++ c ++ post)) pre.length
      = Run.done (promote (toChar c.length)) := by
    have := load_append_right pre (le32 c.length ++ c ++ post) 0
    rw [Nat.add_zero] at this
    rw [this]; simp [load, le32]
  have h1 : load (pre ++ (le32 c.length ++ c ++ post)) (pre.length + 1)
      = Run.done (promote (toChar (c.length / 256))) := by
    rw [load_append_right]; simp [load, le32]
  have h2 : load (pre ++ (le32 c.length ++ c ++ post)) (pre.length + 2)
      = Run.done (promote (toChar (c.length / 65536))) := by
    rw [load_append_right]; simp [load, le32]
  have h3 : load (pre ++ (le32 c.length ++ c ++ post)) (pre.length + 3)
      = Run.done (promote (toChar (c.length / 16777216))) := by
    rw [load_append_right]; simp [load, le32]
  unfold readComment
  rw [h0, h1, h2, h3]
  simp only [Run.done_bind, promote_land_255, toChar_val]
  rw [le32_decode _ (by omega), toInt_of_lt hc, Int.toNat_ofNat]
  rw [readChars_eq_done _ _ _ (by
    rw [Int.toNat_ofNat]
    simp only [List.length_append, le32_length]
    omega)]
  rw [Int.toNat_ofNat, Run.done_bind]
  have hd : List.drop (pre.length + 4) (pre ++ (le32 c.length ++ c ++ post)) = c ++ post := by
    have e : pre ++ (le32 c.length ++ c ++ post) = (pre ++ le32 c.length) ++ (c ++ post) := by
      simp only [List.append_assoc]
    have l : pre.length + 4 = (pre ++ le32 c.length).length := by
      simp only [List.length_append, le32_length]
    rw [e, l, List.drop_left]
  rw [hd, List.take_left]
  have e : pre.length + 3 + c.length + 1 = pre.length + 4 + c.length := by omega
  rw [e]

theorem commentsLoop_entries (data : List Byte) :
    ∀ (cs : List (List Byte)) (pre : List Byte) (fuel : Nat),
      data = pre ++ (cs.map fun c => le32 c.length ++ c).flatten →
      (∀ c ∈ cs, c.length < 2147483648) → cs.length < fuel →
      commentsLoop data (data.length : Int) fuel pre.length = Run.done (cs.map splitComment) := by
  intro cs
  induction cs with
  | nil =>
    intro pre fuel hd _ hf
    cases fuel with
    | zero => omega
    | succ fuel =>
      have hl : data.length = pre.length := by rw [hd]; simp
      unfold commentsLoop
      rw [if_neg (by rw [hl]; omega)]
      rfl
  | cons c cs ih =>
    intro pre fuel hd hc hf
    cases fuel with
    | zero => omega
    | succ fuel =>
      have hd1 : data = pre ++ (le32 c.length ++ c
          ++ (cs.map fun c => le32 c.length ++ c).flatten) := by
        rw [hd]; simp only [List.map_cons, List.flatten_cons, List.append_assoc]
      have hl : pre.length < data.length := by
        rw [hd1]; simp only [List.length_append, le32_length]; omega
      have hr := readComment_at pre c (cs.map fun c => le32 c.length ++ c).flatten
        (hc c (List.mem_cons_self _ _))
      rw [← hd1] at hr
      have hd2 : data = (pre ++ (le32 c.length ++ c))
          ++ (cs.map fun c => le32 c.length ++ c).flatten := by
        rw [hd1]; simp only [List.append_assoc]
      have hi := ih (pre ++ (le32 c.length ++ c)) fuel hd2
        (fun x hx => hc x (List.mem_cons_of_mem _ hx))
        (by simp only [List.length_cons] at hf; omega)
      have hlen : (pre ++ (le32 c.length ++ c)).length = pre.length + 4 + c.length := by
        simp only [List.length_append, le32_length]; omega
      rw [hlen] at hi
      unfold commentsLoop
      rw [if_pos (by omega), hr, Run.done_bind]
      simp only []
      rw [hi, Run.done_bind, List.map_cons]

theorem entries_length_ge (cs : List (List Byte)) :
    cs.length ≤ ((cs.map fun c => le32 c.length ++ c).flatten).length := by
  induction cs with
  | nil => simp
  | cons c cs ih =>
    simp only [List.map_cons, List.flatten_cons, List.length_append, List.length_cons,
      le32_length]
    omega

theorem entry_length_le (cs : List (List Byte)) (c : List Byte) (hc : c ∈ cs) :
    c.length ≤ ((cs.map fun c => le32 c.length ++ c).flatten).length := by
  induction cs with
  | nil => cases hc
  | cons d cs ih =>
    simp only [List.map_cons, List.flatten_cons, List.length_append, le32_length]
    rcases List.mem_cons.mp hc with h | h
    · subst h; omega
    · have := ih h; omega

theorem vorbisBody_eq (vendor : List Byte) (cs : List (List Byte)) :
    vorbisBody vendor cs = (le32 vendor.length ++ vendor ++ le32 cs.length)
      ++ (cs.map fun c => le32 c.length ++ c).flatten := rfl

/-- The comments the decoder reads from a laid-out body whose vendor string has 32 cells:
the comments of the body, in order, each split into key and value. -/
theorem commentsRead_vorbisBody (vendor : List Byte) (cs : List (List Byte))
    (hv : vendor.length = 32) (hlen : (vorbisBody vendor cs).length < 2147483648) :
    commentsRead (vorbisBody vendor cs) ((vorbisBody vendor cs).length : Int)
      = Run.done (cs.map splitComment) := by
  have hc : ∀ c ∈ cs, c.length < 2147483648 := by
    intro c h
    have := entry_length_le cs c h
    rw [vorbisBody_eq, List.length_append] at hlen
    omega
  have hpre : (le32 vendor.length ++ vendor ++ le32 cs.length).length = 39 + 1 := by
    simp only [List.length_append, le32_length, hv]
  unfold commentsRead
  rw [← hpre]
  refine commentsLoop_entries _ cs _ _ (vorbisBody_eq vendor cs) hc ?_
  have := entries_length_ge cs
  rw [vorbisBody_eq, List.length_append]
  omega

/-- The map `parseVorbisComment` builds from such a body. -/
theorem parseVorbisComment_vorbisBody (vendor : List Byte) (cs : List (List Byte))
    (hv : vendor.length = 32) (hlen : (vorbisBody vendor cs).length < 2147483648) :
    parseVorbisComment (vorbisBody vendor cs) ((vorbisBody vendor cs).length : Int)
      = Run.done { MetaBlock.zero with
          dataMap := (cs.map splitComment).foldl (fun m e => mapAdd m e.key e.value) [] } := by
  have h := commentsRead_vorbisBody vendor cs hv hlen
  unfold commentsRead at h
  unfold parseVorbisComment
  rw [vorbisLoop_eq_fold, h]
  rfl

theorem foldl_commentStep_flag (c : List Byte) :
    ∀ acc : CommentAcc, acc.flag = true → (c.foldl commentStep acc).key = acc.key := by
  induction c with
  | nil => intro acc _; rfl
  | cons b c ih =>
    intro acc hf
    rw [List.foldl_cons]
    by_cases hb : b = 61
    · rw [ih _ (by simp [commentStep, hb])]
      simp [commentStep, hb]
    · rw [ih _ (by simp [commentStep, hb, hf])]
      simp [commentStep, hb, hf]

theorem foldl_commentStep_key (c : List Byte) :
    ∀ acc : CommentAcc, acc.flag = false →
      (c.foldl commentStep acc).key = acc.key ++ c.takeWhile (fun b => b ≠ 61) := by
  induction c with
  | nil => intro acc _; simp
  | cons b c ih =>
    intro acc hf
    rw [List.foldl_cons]
    by_cases hb : b = 61
    · rw [foldl_commentStep_flag c _ (by simp [commentStep, hb])]
      simp [commentStep, hb, List.takeWhile_cons]
    · rw [ih _ (by simp [commentStep, hb, hf])]
      simp [commentStep, hb, hf, List.takeWhile_cons]

theorem foldl_commentStep_no_separator (c : List Byte) (hsep : (61 : Byte) ∉ c) :
    ∀ acc : CommentAcc, acc.flag = false →
      c.foldl commentStep acc = ⟨acc.key ++ c, acc.value, false⟩ := by
  induction c with
  | nil => intro acc hf; cases acc; simp_all
  | cons b c ih =>
    intro acc hf
    have hb : b ≠ 61 := fun h => hsep (by simp [h])
    have hc : (61 : Byte) ∉ c := fun h => hsep (List.mem_cons_of_mem _ h)
    rw [List.foldl_cons, ih hc _ (by simp [commentStep, hb, hf])]
    simp [commentStep, hb, hf]

theorem splitComment_key (c : List Byte) :
    (splitComment c).key = c.takeWhile (fun b => b ≠ 61) := by
  unfold splitComment
  rw [foldl_commentStep_key c _ rfl]
  rfl

theorem splitComment_no_separator (c : List Byte) (hsep : (61 : Byte) ∉ c) :
    splitComment c = ⟨c, [], false⟩ := by
  unfold splitComment
  rw [foldl_commentStep_no_separator c hsep _ rfl]
  rfl

theorem valuesOf_map_splitComment (K : List Byte) (cs : List (List Byte)) :
    valuesOf K (cs.map splitComment)
      = (cs.filter fun c => c.takeWhile (fun b => b ≠ 61) = K).map
          fun c => (splitComment c).value := by
  unfold valuesOf
  induction cs with
  | nil => rfl
  | cons c cs ih =>
    simp only [List.map_cons, List.filter_cons, splitComment_key]
    by_cases h : c.takeWhile (fun b => b ≠ 61) = K
    · rw [if_pos (decide_eq_true h), if_pos (decide_eq_true h), List.map_cons, List.map_cons, ih]
    · rw [if_neg (by simpa using h), if_neg (by simpa using h), ih]

/-- Counterexample to C11 as stated: the comments `artist=A`, `ARTIST=B` are stored under
the two keys `artist` and `ARTIST`; the key `ARTIST` has the values `[B]`, not `[A, B]`. -/
theorem parseVorbisComment_keys_not_uppercased :
    (parseVorbisComment exampleMixedCaseBody 64).bind (fun vc => Run.done vc.dataMap)
        = Run.done [(ascii "artist", [ascii "A"]), (ascii "ARTIST", [ascii "B"])]
    ∧ (parseVorbisComment exampleMixedCaseBody 64).bind
        (fun vc => Run.done (mapFind vc.dataMap (ascii "ARTIST")))
        ≠ Run.done (some [ascii "A", ascii "B"]) := by
  decide

/-- C11, amended: the key the decoder takes from a comment is the cells before its first
`=`, unchanged (no case conversion), and for every laid-out body with a 32-cell vendor
string that is the key under which `parseVorbisComment` stores the comment: every key `K`
is mapped to the values of exactly the comments whose cells before the first `=` are `K`,
in order. -/
theorem parseVorbisComment_keys_verbatim (vendor : List Byte) (cs : List (List Byte))
    (hv : vendor.length = 32) (hlen : (vorbisBody vendor cs).length < 2147483648) :
    (∀ c : List Byte, (splitComment c).key = c.takeWhile (fun b => b ≠ 61))
    ∧ ∃ vc, parseVorbisComment (vorbisBody vendor cs) ((vorbisBody vendor cs).length : Int)
        = Run.done vc
      ∧ ∀ K, mapFind vc.dataMap K =
          if (cs.filter fun c => c.takeWhile (fun b => b ≠ 61) = K) = [] then none
          else some ((cs.filter fun c => c.takeWhile (fun b => b ≠ 61) = K).map
            fun c => (splitComment c).value) := by
  refine ⟨splitComment_key, _, parseVorbisComment_vorbisBody vendor cs hv hlen, fun K => ?_⟩
  show mapFind ((cs.map splitComment).foldl (fun m e => mapAdd m e.key e.value) []) K = _
  rw [mapFind_foldl, valuesOf_map_splitComment]
  by_cases h : (cs.filter fun c => c.takeWhile (fun b => b ≠ 61) = K) = []
  · simp [h, mapFind]
  · simp [h, mapFind]

/-- Witness for the amended C11: `artist=A`, `ARTIST=B` give `artist -> [A]` and
`ARTIST -> [B]`. -/
theorem parseVorbisComment_keys_verbatim_witness :
    ∃ vc, parseVorbisComment exampleMixedCaseBody 64 = Run.done vc
      ∧ mapFind vc.dataMap (ascii "artist") = some [ascii "A"]
      ∧ mapFind vc.dataMap (ascii "ARTIST") = some [ascii "B"] := by
  obtain ⟨-, vc, h, hk⟩ := parseVorbisComment_keys_verbatim exampleVendor
    [ascii "artist=A", ascii "ARTIST=B"] (by decide) (by decide)
  exact ⟨vc, h, by rw [hk]; decide, by rw [hk]; decide⟩

theorem mem_valuesOf_of_mem (K : List Byte) (e : CommentAcc) (entries : List CommentAcc)
    (he : e ∈ entries) (hk : e.key = K) : e.value ∈ valuesOf K entries := by
  unfold valuesOf
  exact List.mem_map.mpr ⟨e, List.mem_filter.mpr ⟨he, decide_eq_true hk⟩, rfl⟩

theorem Run.bind_assoc {α β γ : Type} (x : Run α) (f : α → Run β) (g : β → Run γ) :
    (x.bind f).bind g = x.bind fun a => (f a).bind g := by
  cases x <;> rfl

/-- A round of the comment loop reads the cells of the entry and splits them. -/
theorem readComment_eq_cells (data : List Byte) (use : Nat) :
    readComment data use =
      (readCommentCells data use).bind fun r => Run.done (splitComment r.1, r.2) := by
  unfold readComment readCommentCells
  simp only [Run.bind_assoc, Run.done_bind]

/-- The entries the comment loop reads are the cells it reads, each split. -/
theorem commentsLoop_eq_cells (data : List Byte) (size : Int) :
    ∀ (fuel use : Nat), commentsLoop data size fuel use =
      (commentCellsLoop data size fuel use).bind fun cs => Run.done (cs.map splitComment) := by
  intro fuel
  induction fuel with
  | zero => intro use; rfl
  | succ fuel ih =>
    intro use
    unfold commentsLoop commentCellsLoop
    by_cases hlt : (use : Int) < size
    · rw [if_pos hlt, if_pos hlt, readComment_eq_cells]
      cases readCommentCells data use with
      | done r =>
        simp only [Run.done_bind]
        rw [ih]
        cases commentCellsLoop data size fuel r.2 <;> rfl
      | outOfBounds => rfl
      | outOfFuel => rfl
    · rw [if_neg hlt, if_neg hlt]
      rfl

/-- The decoder returns whenever the reading of the entries' cells returns, with the map
folded from the entries read, each split. -/
theorem parseVorbisComment_of_cells (data : List Byte) (size : Int) (cs : List (List Byte))
    (h : commentCellsRead data size = Run.done cs) :
    parseVorbisComment data size = Run.done { MetaBlock.zero with
      dataMap := (cs.map splitComment).foldl (fun m e => mapAdd m e.key e.value) [] } := by
  unfold commentCellsRead at h
  unfold parseVorbisComment
  rw [vorbisLoop_eq_fold, commentsLoop_eq_cells, h]
  rfl

/-- C12: for every comment entry `c` that contains no `=`: (1) the loop over its cells ends
with `key = c` and an empty `value`; (2) wherever `c` lies in a body behind its length
field, the round of the decoder that reads it does not fail and gives `key = c`, an empty
`value`, and the offset behind `c`; (3) the map update appends the empty value to the
values of `c`; (4) for every body and size, with no assumption on its layout, if the
decoder's reading of entry cells returns and `c` is among the entries read, the decoder
returns and in its map the key `c` has the empty string among its values; (5) so it is
for every comment `c` of a laid-out body with a 32-cell vendor string. -/
theorem parseVorbisComment_keeps_comment_without_separator (c : List Byte)
    (hsep : (61 : Byte) ∉ c) :
    splitComment c = ⟨c, [], false⟩
    ∧ (∀ pre post : List Byte, c.length < 2147483648 →
        readComment (pre ++ (le32 c.length ++ c ++ post)) pre.length
          = Run.done (⟨c, [], false⟩, pre.length + 4 + c.length))
    ∧ (∀ m, mapFind (mapAdd m c []) c = some ((mapFind m c).getD [] ++ [[]]))
    ∧ (∀ (data : List Byte) (size : Int) (cs : List (List Byte)),
        commentCellsRead data size = Run.done cs → c ∈ cs →
        ∃ vc, parseVorbisComment data size = Run.done vc
          ∧ ∃ vs, mapFind vc.dataMap c = some vs ∧ [] ∈ vs)
    ∧ (∀ (vendor : List Byte) (cs : List (List Byte)), vendor.length = 32 →
        (vorbisBody vendor cs).length < 2147483648 → c ∈ cs →
        ∃ vc, parseVorbisComment (vorbisBody vendor cs) ((vorbisBody vendor cs).length : Int)
            = Run.done vc
          ∧ ∃ vs, mapFind vc.dataMap c = some vs ∧ [] ∈ vs) := by
  have hs := splitComment_no_separator c hsep
  have hval : ∀ cs : List (List Byte), c ∈ cs →
      mapFind ((cs.map splitComment).foldl (fun m e => mapAdd m e.key e.value) []) c
          = some (valuesOf c (cs.map splitComment))
        ∧ [] ∈ valuesOf c (cs.map splitComment) := by
    intro cs hc
    have hmem : [] ∈ valuesOf c (cs.map splitComment) := by
      have := mem_valuesOf_of_mem c (splitComment c) (cs.map splitComment)
        (List.mem_map.mpr ⟨c, hc, rfl⟩) (by rw [hs])
      rw [hs] at this
      exact this
    refine ⟨?_, hmem⟩
    rw [mapFind_foldl, if_neg (List.ne_nil_of_mem hmem)]
    simp [mapFind]
  refine ⟨hs, ?_, fun m => by rw [mapFind_mapAdd, if_pos rfl], ?_, ?_⟩
  · intro pre post hlen
    rw [readComment_at pre c post hlen, hs]
  · intro data size cs hread hc
    exact ⟨_, parseVorbisComment_of_cells data size cs hread, _, (hval cs hc).1, (hval cs hc).2⟩
  · intro vendor cs hv hlen hc
    exact ⟨_, parseVorbisComment_vorbisBody vendor cs hv hlen, _, (hval cs hc).1, (hval cs hc).2⟩

/-- Witness for C12: after `ARTIST=A`, the comment `NOSEP` is stored as `NOSEP -> [""]`. -/
theorem parseVorbisComment_keeps_comment_without_separator_witness :
    (61 : Byte) ∉ ascii "NOSEP"
    ∧ splitComment (ascii "NOSEP") = ⟨ascii "NOSEP", [], false⟩
    ∧ commentCellsRead exampleNoSeparatorBody 61 = Run.done [ascii "ARTIST=A", ascii "NOSEP"]
    ∧ ∃ vc, parseVorbisComment exampleNoSeparatorBody 61 = Run.done vc
        ∧ ∃ vs, mapFind vc.dataMap (ascii "NOSEP") = some vs ∧ [] ∈ vs :=
  ⟨by decide, (parseVorbisComment_keeps_comment_without_separator (ascii "NOSEP")
      (by decide)).1, by decide,
    (parseVorbisComment_keeps_comment_without_separator (ascii "NOSEP") (by decide)).2.2.2.1
      exampleNoSeparatorBody 61 [ascii "ARTIST=A", ascii "NOSEP"] (by decide) (by decide)⟩

/-- Counterexample to C13 as stated: in a laid-out body with an empty vendor string
(`L = 0`), comment count 1 and the comment `A=B`, 15 cells in all, the decoder starts at
offset 40, beyond the body, and reads no comment at all; the map stays empty. -/
theorem parseVorbisComment_start_ignores_vendor_length :
    exampleEmptyVendorBody.length = 15
    ∧ commentsRead exampleEmptyVendorBody 15 = Run.done []
    ∧ (parseVorbisComment exampleEmptyVendorBody 15).bind (fun vc => Run.done vc.dataMap)
        = Run.done [] := by
  decide

/-- C13, amended: for every laid-out body whose vendor string has `L = 32` cells, the
decoder reads its first comment at body offset `40 = 4 + L + 4`, and reads exactly the
comments of the body, in order, each being the cells its own little-endian length prefix
gives (split into key and value); the map is built from them. The start offset 40 is
fixed and the comment count field is not read. -/
theorem parseVorbisComment_reads_comments (vendor : List Byte) (cs : List (List Byte))
    (hv : vendor.length = 32) (hlen : (vorbisBody vendor cs).length < 2147483648) :
    (vorbisBody vendor cs).drop (4 + vendor.length + 4)
        = (cs.map fun c => le32 c.length ++ c).flatten
    ∧ (∀ c rest, cs = c :: rest →
        readComment (vorbisBody vendor cs) (4 + vendor.length + 4)
          = Run.done (splitComment c, 4 + vendor.length + 4 + 4 + c.length))
    ∧ commentsRead (vorbisBody vendor cs) ((vorbisBody vendor cs).length : Int)
        = Run.done (cs.map splitComment)
    ∧ parseVorbisComment (vorbisBody vendor cs) ((vorbisBody vendor cs).length : Int)
        = Run.done { MetaBlock.zero with
            dataMap := (cs.map splitComment).foldl (fun m e => mapAdd m e.key e.value) [] } := by
  have hpre : (le32 vendor.length ++ vendor ++ le32 cs.length).length
      = 4 + vendor.length + 4 := by
    simp only [List.length_append, le32_length]
  refine ⟨?_, ?_, commentsRead_vorbisBody vendor cs hv hlen,
    parseVorbisComment_vorbisBody vendor cs hv hlen⟩
  · rw [vorbisBody_eq, ← hpre, List.drop_left]
  · intro c rest hcs
    have hc : c.length < 2147483648 := by
      have := entry_length_le cs c (by rw [hcs]; exact List.mem_cons_self _ _)
      rw [vorbisBody_eq, List.length_append] at hlen
      omega
    have h := readComment_at (le32 vendor.length ++ vendor ++ le32 cs.length) c
      (rest.map fun c => le32 c.length ++ c).flatten hc
    rw [hpre] at h
    rw [vorbisBody_eq, hcs, List.map_cons, List.flatten_cons, ← hcs]
    simp only [List.append_assoc] at h ⊢
    exact h

/-- Witness for the amended C13: the reference vendor string and the comments `ARTIST=A`,
`ARTIST=B`. -/
theorem parseVorbisComment_reads_comments_witness :
    exampleArtistBody.drop 40
        = le32 8 ++ ascii "ARTIST=A" ++ (le32 8 ++ ascii "ARTIST=B")
    ∧ commentsRead exampleArtistBody 64
        = Run.done [splitComment (ascii "ARTIST=A"), splitComment (ascii "ARTIST=B")] := by
  obtain ⟨h1, -, h3, -⟩ := parseVorbisComment_reads_comments exampleVendor
    [ascii "ARTIST=A", ascii "ARTIST=B"] (by decide) (by decide)
  exact ⟨h1, h3⟩

/-! ## The SeekTable decoder -/

theorem seekTableLoop_round (data : List Byte) (size : Int) (fuel use : Nat)
    (points : List SeekPoint) (hlt : (use : Int) < size) (hlen : use + 18 ≤ data.length) :
    seekTableLoop data size (fuel + 1) use points
      = seekTableLoop data size fuel (use + 18) (points ++ [seekPointAt data use]) := by
  have h16 : use + 16 < data.length := by omega
  have h17 : use + 17 < data.length := by omega
  conv => lhs; unfold seekTableLoop
  rw [if_pos hlt, storeCells_eq_done data use 8 (by omega) (by omega), Run.done_bind,
    storeCells_eq_done data (use + 8) 8 (by omega) (by omega), Run.done_bind,
    load_eq_done h16, Run.done_bind, load_eq_done h17, Run.done_bind]
  simp only [seekPointAt, List.getD_eq_getElem _ _ h16, List.getD_eq_getElem _ _ h17]

theorem seekTableLoop_points (data : List Byte) (k : Nat) (hk : data.length = 18 * k) :
    ∀ (j i fuel : Nat) (points : List SeekPoint), i + j = k → j < fuel →
      seekTableLoop data ((18 * k : Nat) : Int) fuel (18 * i) points
        = Run.done (points ++ (List.range' i j).map fun t => seekPointAt data (18 * t)) := by
  intro j
  induction j with
  | zero =>
    intro i fuel points hij hf
    cases fuel with
    | zero => omega
    | succ fuel =>
      unfold seekTableLoop
      rw [if_neg (by omega)]
      simp
  | succ j ih =>
    intro i fuel points hij hf
    cases fuel with
    | zero => omega
    | succ fuel =>
      rw [seekTableLoop_round data _ fuel (18 * i) points (by omega) (by omega)]
      have e : 18 * i + 18 = 18 * (i + 1) := by omega
      rw [e, ih (i + 1) fuel _ (by omega) (by omega), List.range'_succ]
      simp

theorem promote_ne_zero (b : Byte) : promote b ≠ 0 ↔ b ≠ 0 := by
  have := b.isLt
  unfold promote
  constructor
  · intro h hb
    subst hb
    simp at h
  · intro h
    have : b.val ≠ 0 := fun e => h (Fin.ext e)
    split <;> omega

/-- The count of a seek point: each of its two cells counts as 0 or 1. -/
theorem seekPointAt_eq (data : List Byte) (use : Nat) :
    seekPointAt data use = ⟨[], [], (if data.getD (use + 16) 0 ≠ 0 then 256 else 0)
      + (if data.getD (use + 17) 0 ≠ 0 then 1 else 0)⟩ := by
  unfold seekPointAt logAnd
  by_cases ha : data.getD (use + 16) 0 = 0 <;> by_cases hb : data.getD (use + 17) 0 = 0
  · rw [ha, hb]; rfl
  · have hb1 := (promote_ne_zero _).mpr hb
    rw [ha, if_neg (by decide), if_pos ⟨hb1, by decide⟩, if_pos hb]
    rfl
  · have ha1 := (promote_ne_zero _).mpr ha
    rw [hb, if_pos ⟨ha1, by decide⟩, if_pos ha, if_neg (by decide)]
    rfl
  · have ha1 := (promote_ne_zero _).mpr ha
    have hb1 := (promote_ne_zero _).mpr hb
    rw [if_pos ⟨ha1, by decide⟩, if_pos ⟨hb1, by decide⟩, if_pos ha, if_pos hb]
    rfl

theorem parseSeekTable_eq (data : List Byte) (k : Nat) (hk : data.length = 18 * k) :
    parseSeekTable data ((18 * k : Nat) : Int)
      = Run.done { MetaBlock.zero with
          seekPoints := (List.range k).map fun i => seekPointAt data (18 * i) } := by
  unfold parseSeekTable
  have := seekTableLoop_points data k hk k 0 (data.length + 1) [] (by omega) (by omega)
  rw [Nat.mul_zero] at this
  rw [this, List.range_eq_range']
  rfl

/-- C14: for every SeekTable body of `18*k` cells (`k ≥ 0`), `parseSeekTable` returns a
table of exactly `k` seek points; the `i`-th is built from the body cells
`18*i .. 18*i+17`: its two strings are empty and its count is 256 if cell `18*i+16` is not
zero, plus 1 if cell `18*i+17` is not zero. A body of length 0 gives the empty
sequence. -/
theorem parseSeekTable_points (data : List Byte) (k : Nat) (hk : data.length = 18 * k) :
    ∃ points, parseSeekTable data ((18 * k : Nat) : Int)
        = Run.done { MetaBlock.zero with seekPoints := points }
      ∧ points.length = k
      ∧ (∀ i, i < k → points[i]? = some
          ⟨[], [], (if data.getD (18 * i + 16) 0 ≠ 0 then 256 else 0)
            + (if data.getD (18 * i + 17) 0 ≠ 0 then 1 else 0)⟩)
      ∧ (k = 0 → points = []) := by
  refine ⟨_, parseSeekTable_eq data k hk, by simp, fun i hi => ?_, fun h0 => ?_⟩
  · rw [List.getElem?_map, List.getElem?_range hi, Option.map_some', seekPointAt_eq]
  · subst h0
    rfl

/-- Witness for C14: the two-point table gives two points, built from cells 0–17 and
18–35; the empty body gives no point. -/
theorem parseSeekTable_points_witness :
    exampleSeekBody.length = 18 * 2
    ∧ parseSeekTable exampleSeekBody 36
        = Run.done { MetaBlock.zero with seekPoints := [⟨[], [], 256⟩, ⟨[], [], 256⟩] }
    ∧ parseSeekTable [] 0 = Run.done { MetaBlock.zero with seekPoints := [] }
    ∧ ∃ points, parseSeekTable exampleSeekBody ((18 * 2 : Nat) : Int)
          = Run.done { MetaBlock.zero with seekPoints := points }
        ∧ points.length = 2 :=
  ⟨by decide, by decide, by decide,
    (parseSeekTable_points exampleSeekBody 2 (by decide)).imp fun _ h => ⟨h.1, h.2.1⟩⟩

/-- C15, the code at the failing input: the placeholder point (sample number eight `0xFF`
cells, frame offset `00 00 00 00 00 00 10 00`, sample count `10 00`) is decoded to a point
whose `sampleNumber` and `frameOffset` are empty and whose count is 256 (the claim: eight
`0xFF` cells, the eight offset cells, 4096). Lines 426 and 430 store the cells through
`operator[]` into default-constructed strings, whose length stays 0, and lines 426–432
apply the logical `&&` where every other decoder applies the bitwise `&`, so each count
cell is reduced to 0 or 1. No 18-cell point is preserved: the strings are always empty
and the count is one of 0, 1, 256, 257. -/
theorem parseSeekTable_point_not_preserved :
    (parseSeekTable examplePlaceholderPoint 18).bind (fun t => Run.done t.seekPoints)
        = Run.done [⟨[], [], 256⟩]
    ∧ (parseSeekTable examplePlaceholderPoint 18).bind (fun t => Run.done t.seekPoints)
        ≠ Run.done [⟨[0xff, 0xff, 0xff, 0xff, 0xff, 0xff, 0xff, 0xff],
            [0, 0, 0, 0, 0, 0, 0x10, 0x00], 4096⟩]
    ∧ (∀ p : List Byte, p.length = 18 → ∃ c : Int,
        parseSeekTable p 18 = Run.done { MetaBlock.zero with seekPoints := [⟨[], [], c⟩] }
          ∧ (c = 0 ∨ c = 1 ∨ c = 256 ∨ c = 257)) := by
  refine ⟨by decide, by decide, ?_⟩
  intro p hp
  have h := parseSeekTable_eq p 1 (by omega)
  have hr : List.range 1 = [0] := rfl
  rw [show ((18 * 1 : Nat) : Int) = 18 from rfl, hr, List.map_cons, List.map_nil,
    seekPointAt_eq] at h
  refine ⟨_, h, ?_⟩
  by_cases ha : p.getD (18 * 0 + 16) 0 = 0 <;> by_cases hb : p.getD (18 * 0 + 17) 0 = 0
  · left; rw [if_neg (by simpa using ha), if_neg (by simpa using hb)]; rfl
  · right; left; rw [if_neg (by simpa using ha), if_pos hb]; rfl
  · right; right; left; rw [if_pos ha, if_neg (by simpa using hb)]; rfl
  · right; right; right; rw [if_pos ha, if_pos hb]; rfl

theorem seekTableLoop_short_round (data : List Byte) (size : Int) (fuel use : Nat)
    (points : List SeekPoint) (hlt : (use : Int) < size) (hlen : data.length < use + 18) :
    seekTableLoop data size (fuel + 1) use points = Run.outOfBounds := by
  unfold seekTableLoop
  rw [if_pos hlt]
  by_cases h8 : data.length < use + 8
  · rw [storeCells_eq_outOfBounds data use 8 (Or.inl ⟨by omega, h8⟩), Run.outOfBounds_bind]
  rw [storeCells_eq_done data use 8 (by omega) (by omega), Run.done_bind]
  by_cases h16 : data.length < use + 8 + 8
  · rw [storeCells_eq_outOfBounds data (use + 8) 8 (Or.inl ⟨by omega, h16⟩),
      Run.outOfBounds_bind]
  rw [storeCells_eq_done data (use + 8) 8 (by omega) (by omega), Run.done_bind]
  by_cases h17 : data.length ≤ use + 16
  · rw [load_eq_outOfBounds h17, Run.outOfBounds_bind]
  rw [load_eq_done (by omega), Run.done_bind, load_eq_outOfBounds (by omega),
    Run.outOfBounds_bind]

theorem seekTableLoop_remainder (data : List Byte) (k r : Nat) (hr0 : 0 < r) (hr : r < 18)
    (hk : data.length = 18 * k + r) :
    ∀ (j i fuel : Nat) (points : List SeekPoint), i + j = k → j < fuel →
      seekTableLoop data (data.length : Int) fuel (18 * i) points = Run.outOfBounds := by
  intro j
  induction j with
  | zero =>
    intro i fuel points hij hf
    cases fuel with
    | zero => omega
    | succ fuel =>
      exact seekTableLoop_short_round data _ fuel _ points (by omega) (by omega)
  | succ j ih =>
    intro i fuel points hij hf
    cases fuel with
    | zero => omega
    | succ fuel =>
      rw [seekTableLoop_round data _ fuel (18 * i) points (by omega) (by omega)]
      have e : 18 * i + 18 = 18 * (i + 1) := by omega
      rw [e]
      exact ih (i + 1) fuel _ (by omega) (by omega)

/-- On a body whose length is not a multiple of 18, `parseSeekTable` has no error to
return: after the complete points it starts one more round, which reads a cell outside
the body. -/
theorem parseSeekTable_remainder (data : List Byte) (h : data.length % 18 ≠ 0) :
    parseSeekTable data (data.length : Int) = Run.outOfBounds := by
  unfold parseSeekTable
  have := seekTableLoop_remainder data (data.length / 18) (data.length % 18) (by omega)
    (by omega) (by omega) (data.length / 18) 0 (data.length + 1) [] (by omega) (by omega)
  rw [Nat.mul_zero] at this
  rw [this, Run.outOfBounds_bind]

/-- C16, the code at the failing input: on a SeekTable body of 19 cells `parseSeekTable`
raises no error; after the first point it starts a second round (`18 < 19`), which reads
the cells 19–35 outside the body, and so does `parse2` on the block `83 00 00 13` and
`parse` on the stream that holds it (when the marker test lets the stream pass, that is,
with a NUL behind the marker array), whatever lies behind the arrays of the decoders. -/
theorem parseSeekTable_no_length_check :
    exampleSeekBodyWithRemainder.length = 19
    ∧ parseSeekTable exampleSeekBodyWithRemainder 19 = Run.outOfBounds
    ∧ (∀ tails : ArrayTails,
        parse2 tails (0x83 :: 0x00 :: 0x00 :: 0x13 :: exampleSeekBodyWithRemainder) {}
          = Run.outOfBounds)
    ∧ (∀ tails : Nat → ArrayTails,
        parse [] tails (fLaC ++ (0x83 :: 0x00 :: 0x00 :: 0x13 :: exampleSeekBodyWithRemainder)) {}
          = Run.outOfBounds) := by
  refine ⟨by decide, by decide, fun tails => ?_, fun tails => ?_⟩
  · rfl
  · rfl

/-! ## Truncated blocks and the reserved type code -/

/-- A block whose declared size exceeds the cells that follow its header: the copy loop of
`parse2` (lines 288–291) reads a cell outside the buffer; nothing is returned. -/
theorem parse2_truncated (tails : ArrayTails) (b0 b1 b2 b3 : Byte) (rest : List Byte)
    (info : FlacInfo) (h : rest.length < b1.val * 65536 + b2.val * 256 + b3.val) :
    parse2 tails (b0 :: b1 :: b2 :: b3 :: rest) info = Run.outOfBounds := by
  unfold parse2
  rw [readHeader_cons, Run.done_bind]
  simp only []
  unfold copyBody
  rw [Int.toNat_ofNat, loadRange_eq_outOfBounds _ _ _ (by omega)
    (by simp only [List.length_cons]; omega)]
  rfl

theorem cString_append_nul (l after : List Byte) (h : cString after = []) :
    cString (l ++ after) = cString (l ++ []) := by
  induction l with
  | nil => simpa [cString] using h
  | cons b l ih =>
    unfold cString at ih ⊢
    simp only [List.cons_append, List.takeWhile_cons]
    split
    · rw [ih]
    · rfl

/-- Cells behind the marker array that start with a NUL are as good as none. -/
theorem parse_after_nul (after : List Byte) (tails : Nat → ArrayTails) (content : List Byte)
    (info : FlacInfo) (h : cString after = []) :
    parse after tails content info = parse [] tails content info := by
  unfold parse
  cases loadRange content 0 FLAC_LENGHT with
  | done cells =>
    simp only [Run.done_bind]
    rw [cString_append_nul _ after h]
  | outOfBounds => rfl
  | outOfFuel => rfl

/-- C18, the code at the failing input: the buffer holds `fLaC`, a header that declares 34
body cells, and 10 cells. `parse2` fails nothing and returns nothing: its copy loop reads
the cell at index 14 of its 14-cell buffer, outside it; `parse` does the same (when the
marker test lets the stream pass, that is, with a NUL behind the marker array) and,
whatever lies behind the arrays, never returns `PARSE_FAILED`. -/
theorem parse_reads_past_truncated_block :
    exampleTruncatedStream.length = 18
    ∧ (∀ tails : ArrayTails,
        parse2 tails (exampleTruncatedStream.drop 4) {} = Run.outOfBounds)
    ∧ (∀ tails : Nat → ArrayTails,
        parse [] tails exampleTruncatedStream {} = Run.outOfBounds)
    ∧ (∀ (after : List Byte) (tails : Nat → ArrayTails),
        (parse after tails exampleTruncatedStream {}).bind (fun out => Run.done out.code)
          ≠ Run.done PARSE_FAILED) := by
  refine ⟨by decide, fun tails => rfl, fun tails => rfl, fun after tails => ?_⟩
  by_cases h : cString after = []
  · rw [parse_after_nul after tails _ _ h]
    have e : parse [] tails exampleTruncatedStream {} = Run.outOfBounds := rfl
    rw [e]
    intro hc
    cases hc
  · have e := parse_unterminated_marker after tails 102 76 97 67
      (0x80 :: 0x00 :: 0x00 :: 0x22 :: exampleStreamInfoBody.take 10) {} h
    have hs : exampleTruncatedStream
        = 102 :: 76 :: 97 :: 67 :: (0x80 :: 0x00 :: 0x00 :: 0x22 ::
            exampleStreamInfoBody.take 10) := rfl
    rw [hs, e]
    decide

/-- Counterexample to C19 as stated: on the header `ff 00 00 00` (final flag, type code
127, empty body) `parse2` does not fail: it returns 4, which is not `PARSE_FAILED`, with
the aggregate untouched. -/
theorem parse2_reserved_type_not_rejected :
    parse2 ArrayTails.nul [0xff, 0x00, 0x00, 0x00] {} = Run.done ⟨4, {}, true⟩
    ∧ (parse2 ArrayTails.nul [0xff, 0x00, 0x00, 0x00] {}).bind (fun r => Run.done r.result)
        ≠ Run.done PARSE_FAILED := by
  decide

/-- C19, amended: for every block header whose 7-bit type code is 127 and whose body cells
are in the buffer, `parse2` does not fail: as for every code it does not decode, it skips
the body, leaves the aggregate untouched, reports the final flag of the header and returns
`4 + blockSize`, which is not `PARSE_FAILED`. -/
theorem parse2_reserved_type_skipped (tails : ArrayTails) (b0 b1 b2 b3 : Byte)
    (rest : List Byte) (info : FlacInfo) (ht : b0.val % 128 = 127)
    (hbody : b1.val * 65536 + b2.val * 256 + b3.val ≤ rest.length) :
    parse2 tails (b0 :: b1 :: b2 :: b3 :: rest) info
        = Run.done ⟨4 + ((b1.val * 65536 + b2.val * 256 + b3.val : Nat) : Int), info,
            decide (128 ≤ b0.val)⟩
    ∧ 4 + ((b1.val * 65536 + b2.val * 256 + b3.val : Nat) : Int) ≠ PARSE_FAILED := by
  refine ⟨parse2_skip tails b0 b1 b2 b3 rest info hbody (by omega) (by omega) (by omega)
    (by omega) (by omega), ?_⟩
  simp only [PARSE_FAILED]
  omega

/-- Witness for the amended C19: the header `7f 00 00 02` (type code 127, not final, two
body cells) followed by its body and one more cell. -/
theorem parse2_reserved_type_skipped_witness :
    (0x7f : Byte).val % 128 = 127
    ∧ parse2 ArrayTails.nul [0x7f, 0x00, 0x00, 0x02, 0xaa, 0xbb, 0xcc] {}
        = Run.done ⟨6, {}, false⟩ :=
  ⟨by decide,
    (parse2_reserved_type_skipped ArrayTails.nul 0x7f 0x00 0x00 0x02 [0xaa, 0xbb, 0xcc] {}
      (by decide) (by decide)).1⟩
/-! ## One slot per block type -/

/-- What a decoded block leaves in the aggregate: the block as decoded on an empty
aggregate goes into the slot of its type, whatever the slot held, and no other slot
changes. -/
theorem dispatch_slot {tails : ArrayTails} {h : Header} {realData : List Byte}
    {info info1 : FlacInfo} (hd : dispatch tails h realData info = Run.done info1) :
    ∃ info0, dispatch tails h realData {} = Run.done info0
      ∧ (h.blockType = 1 → info0.padding.isSome = true
          ∧ info1 = { info with padding := info0.padding })
      ∧ (h.blockType = 3 → info0.seekTable.isSome = true
          ∧ info1 = { info with seekTable := info0.seekTable })
      ∧ (h.blockType = 4 → info0.vorbisComment.isSome = true
          ∧ info1 = { info with vorbisComment := info0.vorbisComment })
      ∧ (h.blockType = 6 → info0.picture.isSome = true
          ∧ info1 = { info with picture := info0.picture }) := by
  unfold dispatch at hd ⊢
  simp only [META_TYPE_STREAM_INFO, META_TYPE_PICTURE, META_TYPE_SEEK_TABLE,
    META_TYPE_VORBIS_COMMENT, META_TYPE_PADDING] at hd ⊢
  split_ifs at hd ⊢ with t0 t6 t3 t4 t1
  · obtain ⟨b, hb, e⟩ := Run.bind_eq_done hd
    cases e
    rw [hb]
    refine ⟨_, rfl, ?_, ?_, ?_, ?_⟩ <;> intro t <;> omega
  · obtain ⟨b, hb, e⟩ := Run.bind_eq_done hd
    cases e
    rw [hb]
    refine ⟨_, rfl, ?_, ?_, ?_, fun _ => ⟨rfl, rfl⟩⟩ <;> intro t <;> omega
  · obtain ⟨b, hb, e⟩ := Run.bind_eq_done hd
    cases e
    rw [hb]
    refine ⟨_, rfl, ?_, fun _ => ⟨rfl, rfl⟩, ?_, ?_⟩ <;> intro t <;> omega
  · obtain ⟨b, hb, e⟩ := Run.bind_eq_done hd
    cases e
    rw [hb]
    refine ⟨_, rfl, ?_, ?_, fun _ => ⟨rfl, rfl⟩, ?_⟩ <;> intro t <;> omega
  · obtain ⟨b, hb, e⟩ := Run.bind_eq_done hd
    cases e
    rw [hb]
    refine ⟨_, rfl, fun _ => ⟨rfl, rfl⟩, ?_, ?_, ?_⟩ <;> intro t <;> omega
  · cases hd
    refine ⟨_, rfl, ?_, ?_, ?_, ?_⟩ <;> intro t <;> omega

/-- Counterexample to C20 as stated: two VorbisComment blocks lie one behind the other
(comments `ARTIST=A`, `ARTIST=B`, then the comment `URL=a=b`). The call of `parse2` on the
first fills the `vorbisComment` slot with the first block and returns 68; the call on the
second, 68 cells further, with the aggregate of the first call, leaves in the slot the
second block only: the first is no longer in the aggregate. -/
theorem parse2_second_block_replaces_first :
    parse2 ArrayTails.nul (stream exampleTwoComments) {}
      = Run.done ⟨68, { vorbisComment := some ⟨⟨false, 4, 64⟩,
          [(ascii "ARTIST", [ascii "A", ascii "B"])]⟩ }, false⟩
    ∧ (parse2 ArrayTails.nul (stream exampleTwoComments) {}).bind
        (fun r => (parse2 ArrayTails.nul ((stream exampleTwoComments).drop 68) r.info).bind
          fun r1 => Run.done r1.info)
      = Run.done { vorbisComment := some ⟨⟨true, 4, 51⟩, [(ascii "URL", [ascii "ab"])]⟩ } := by
  have hs : stream exampleTwoComments
      = (⟨4, exampleArtistBody⟩ : Block).cells false
        ++ (0x84 :: 0x00 :: 0x00 :: 0x33 :: exampleUrlBody) := rfl
  have h1 : parse2 ArrayTails.nul (stream exampleTwoComments) {}
      = Run.done ⟨68, { vorbisComment := some ⟨⟨false, 4, 64⟩,
          [(ascii "ARTIST", [ascii "A", ascii "B"])]⟩ }, false⟩ := by
    rw [hs, parse2_block ArrayTails.nul ⟨4, exampleArtistBody⟩ (by decide) false]
    rfl
  have h2 : (stream exampleTwoComments).drop 68
      = 0x84 :: 0x00 :: 0x00 :: 0x33 :: exampleUrlBody := by
    have hl : (68 : Nat) = ((⟨4, exampleArtistBody⟩ : Block).cells false).length := by decide
    rw [hs, hl, List.drop_left]
  refine ⟨h1, ?_⟩
  rw [h1, Run.done_bind, h2]
  rfl

/-- C20, amended: the aggregate has one slot per block type. Every call of `parse2` that
returns on a block of type Padding (1), SeekTable (3), VorbisComment (4) or Picture (6)
puts the block, as the same call decodes it on an empty aggregate, into the slot of its
type, whatever block the slot held before, and leaves every other slot as it was: a later
block of a type replaces an earlier one, and the aggregate never holds two blocks of one
type. -/
theorem parse2_keeps_last_block_of_type (tails : ArrayTails) (b0 b1 b2 b3 : Byte)
    (rest : List Byte) (info : FlacInfo) (out : Parse2Out)
    (hrun : parse2 tails (b0 :: b1 :: b2 :: b3 :: rest) info = Run.done out) :
    ∃ fresh, parse2 tails (b0 :: b1 :: b2 :: b3 :: rest) {} = Run.done fresh
      ∧ (b0.val % 128 = 1 → fresh.info.padding.isSome = true
          ∧ out.info = { info with padding := fresh.info.padding })
      ∧ (b0.val % 128 = 3 → fresh.info.seekTable.isSome = true
          ∧ out.info = { info with seekTable := fresh.info.seekTable })
      ∧ (b0.val % 128 = 4 → fresh.info.vorbisComment.isSome = true
          ∧ out.info = { info with vorbisComment := fresh.info.vorbisComment })
      ∧ (b0.val % 128 = 6 → fresh.info.picture.isSome = true
          ∧ out.info = { info with picture := fresh.info.picture }) := by
  obtain ⟨h, realData, hh, hc, hd, -, -⟩ := parse2_eq_done hrun
  obtain ⟨info0, hd0, s1, s3, s4, s6⟩ := dispatch_slot hd
  have hfresh : parse2 tails (b0 :: b1 :: b2 :: b3 :: rest) {}
      = Run.done ⟨4 + h.blockSize, info0, h.isLastMetaBlock⟩ := by
    unfold parse2
    rw [hh, Run.done_bind]
    simp only []
    rw [hc, Run.done_bind, hd0]
    rfl
  rw [readHeader_cons] at hh
  cases hh
  refine ⟨_, hfresh, ?_, ?_, ?_, ?_⟩
  · intro t; exact s1 (by simp [t])
  · intro t; exact s3 (by simp [t])
  · intro t; exact s4 (by simp [t])
  · intro t; exact s6 (by simp [t])

/-- Witness for the amended C20: the second of the two VorbisComment blocks, decoded on
the aggregate that holds the first, leaves the aggregate it leaves on an empty one. -/
theorem parse2_keeps_last_block_of_type_witness :
    ∃ out fresh,
      parse2 ArrayTails.nul (0x84 :: 0x00 :: 0x00 :: 0x33 :: exampleUrlBody)
          { vorbisComment := some ⟨⟨false, 4, 64⟩, [(ascii "ARTIST", [ascii "A", ascii "B"])]⟩ }
        = Run.done out
      ∧ parse2 ArrayTails.nul (0x84 :: 0x00 :: 0x00 :: 0x33 :: exampleUrlBody) {}
        = Run.done fresh
      ∧ out.info = { vorbisComment := fresh.info.vorbisComment }
      ∧ out.info = { vorbisComment := some ⟨⟨true, 4, 51⟩, [(ascii "URL", [ascii "ab"])]⟩ } := by
  obtain ⟨fresh, hf, -, -, h4, -⟩ := parse2_keeps_last_block_of_type ArrayTails.nul
    0x84 0x00 0x00 0x33 exampleUrlBody
    { vorbisComment := some ⟨⟨false, 4, 64⟩, [(ascii "ARTIST", [ascii "A", ascii "B"])]⟩ } _ rfl
  exact ⟨_, fresh, rfl, hf, (h4 (by decide)).2, by decide⟩
/-! ## The Picture decoder -/

/-- C17, the code at the failing input: for the laid-out body with description cells
`61 00 62`, `parsePicture` yields the six integers and the data as laid out, but `desc` is
the single cell `61`, whatever lies behind the arrays: `std::string(desc)` (line 406) is
built from a `char` array as a C string and stops at the first NUL, while the data is
appended cell by cell (line 399) and keeps every cell. The MIME string, built the same way
(line 404) from cells without a NUL, runs on into the cells behind its array. -/
theorem parsePicture_description_cut_at_nul :
    examplePictureBody.length = 47
    ∧ parsePicture ArrayTails.nul examplePictureBody 47
        = Run.done { MetaBlock.zero with
            pictureType := 3, mineTypeLength := 9, mineType := ascii "image/png",
            descLength := 3, desc := [97],
            pictureWidth := 16, pictureHeight := 16, colorDepth := 24, colorsUseCount := 0,
            dataLength := 3, data := [1, 2, 3] }
    ∧ (parsePicture ArrayTails.nul examplePictureBody 47).bind (fun p => Run.done p.desc)
        ≠ Run.done [97, 0, 98]
    ∧ (∀ tails : ArrayTails, parsePicture tails examplePictureBody 47
        = Run.done { MetaBlock.zero with
            pictureType := 3, mineTypeLength := 9,
            mineType := ascii "image/png" ++ cString tails.mineType,
            descLength := 3, desc := [97],
            pictureWidth := 16, pictureHeight := 16, colorDepth := 24, colorsUseCount := 0,
            dataLength := 3, data := [1, 2, 3] }) := by
  refine ⟨by decide, by decide, by decide, fun tails => ?_⟩
  have hm : cString (ascii "image/png" ++ tails.mineType)
      = ascii "image/png" ++ cString tails.mineType := by
    simp [cString, ascii, List.takeWhile, toChar]
  rw [← hm]
  rfl

end flacpp
